import Mathlib

set_option maxRecDepth 10000

namespace CodeKG

/-! Shallow embedding of the code_kg core: `src/code_kg/graph.py`,
`src/code_kg/extractors/heuristic.py` and `src/code_kg/scanner.py`.
Python strings are modelled through their character lists.  The regular
expressions of the heuristic extractor are modelled as explicit
character-list matchers with the same alternation order and backtracking
behaviour, over the ASCII reading of the classes `\w` and `\s` (Python's
classes additionally match some non-ASCII characters; every input the
claims touch is ASCII). -/

/-- ASCII model of the regex class `\s` and of the default whitespace of
`str.strip()` and `str.split()`. -/
def isSpaceChar (c : Char) : Bool :=
  c == ' ' || c == '\t' || c == '\n' || c == '\r' || c == '\x0b' || c == '\x0c'

/-- ASCII model of the regex class `\w`. -/
def isWordChar (c : Char) : Bool := c.isAlphanum || c == '_'

/-- First character of `[A-Za-z_][\w]*`. -/
def isIdentStartChar (c : Char) : Bool := c.isAlpha || c == '_'

/-- Word-character test on the character before or after a position
(`none` stands for the start or end of the text). -/
def isWordOpt : Option Char → Bool
  | none => false
  | some c => isWordChar c

/-- `str.lower()` (ASCII). -/
def toLowerStr (s : String) : String := String.mk (s.data.map Char.toLower)

/-- `str.strip()` with no argument. -/
def stripWs (s : String) : String :=
  String.mk (((s.data.dropWhile isSpaceChar).reverse.dropWhile isSpaceChar).reverse)

/-- `str.strip(chars)` for an explicit character set. -/
def stripChars (s : String) (bad : List Char) : String :=
  String.mk (((s.data.dropWhile (bad.contains ·)).reverse.dropWhile (bad.contains ·)).reverse)

/-- The characters of the Python literal between the two `strip` calls of
the imports pass: semicolon, both curly brackets and both parentheses. -/
def importStripChars : List Char := [';', Char.ofNat 123, Char.ofNat 125, '(', ')']

def splitWsAux : List Char → List Char → List String
  | [], [] => []
  | [], acc => [String.mk acc.reverse]
  | c :: rest, acc =>
    if isSpaceChar c then
      if acc.isEmpty then splitWsAux rest []
      else String.mk acc.reverse :: splitWsAux rest []
    else splitWsAux rest (c :: acc)

/-- `str.split()` with no argument: whitespace runs separate tokens, and no
empty tokens are produced. -/
def splitWs (s : String) : List String := splitWsAux s.data []

def splitlinesAux : List Char → List Char → List String
  | [], [] => []
  | [], acc => [String.mk acc.reverse]
  | '\r' :: '\n' :: rest, acc => String.mk acc.reverse :: splitlinesAux rest []
  | '\n' :: rest, acc => String.mk acc.reverse :: splitlinesAux rest []
  | '\r' :: rest, acc => String.mk acc.reverse :: splitlinesAux rest []
  | c :: rest, acc => splitlinesAux rest (c :: acc)

/-- `str.splitlines()` over `\n`, `\r\n` and `\r` (Python also splits on a few
rarer control and Unicode separators, none of which occur in the inputs
considered here). -/
def splitlines (s : String) : List String := splitlinesAux s.data []

def splitSepAux (sep : Char) : List Char → List Char → List String
  | [], acc => [String.mk acc.reverse]
  | c :: rest, acc =>
    if c == sep then String.mk acc.reverse :: splitSepAux sep rest []
    else splitSepAux sep rest (c :: acc)

/-- `str.split(sep)` with an explicit one-character separator; empty parts are
kept, as in Python. -/
def splitSep (sep : Char) (s : String) : List String := splitSepAux sep s.data []

/-- `os.path.basename` on POSIX paths: the text after the last slash. -/
def basename (p : String) : String :=
  String.mk ((p.data.reverse.takeWhile (· != '/')).reverse)

def lastDotIdx (cs : List Char) : Option Nat :=
  match cs.reverse.findIdx? (· == '.') with
  | none => none
  | some j => some (cs.length - 1 - j)

/-- The extension part of `os.path.splitext` applied to a basename: everything
from the last dot on, unless every character before that dot is itself a dot
(leading dots never start an extension). -/
def splitextExt (base : String) : String :=
  match lastDotIdx base.data with
  | none => ""
  | some i =>
    if (base.data.take i).all (· == '.') then "" else String.mk (base.data.drop i)

/-- Case-insensitive literal at the start of the text: the rest on success. -/
def dropPrefCI : List Char → List Char → Option (List Char)
  | [], cs => some cs
  | _ :: _, [] => none
  | k :: ks, c :: cs => if k.toLower == c.toLower then dropPrefCI ks cs else none

/-- Case-sensitive literal at the start of the text: the rest on success. -/
def dropPrefCS : List Char → List Char → Option (List Char)
  | [], cs => some cs
  | _ :: _, [] => none
  | k :: ks, c :: cs => if k == c then dropPrefCS ks cs else none

/-- Greedy `[A-Za-z_][\w]*` at the start of the text: the identifier and the
rest. -/
def takeIdent : List Char → Option (List Char × List Char)
  | [] => none
  | c :: cs =>
    if isIdentStartChar c then
      some (c :: cs.takeWhile isWordChar, cs.dropWhile isWordChar)
    else none

def importKeywords : List String := ["import", "from", "using", "use", "include", "require"]

/-- `IMPORT_PATTERNS[0].match(line)` and its group 1, for the pattern
`^\s*(?:import|from|using|use|include|require)\b(.+)$` with `re.IGNORECASE`.
Alternatives are tried in pattern order; a keyword followed by a word character
fails `\b`, and a keyword ending the line leaves nothing for `(.+)` — both
backtrack to the next alternative. -/
def matchImportAux (cs : List Char) : List String → Option String
  | [] => none
  | kw :: kws =>
    match dropPrefCI kw.data cs with
    | some (c :: rest) =>
      if isWordChar c then matchImportAux cs kws else some (String.mk (c :: rest))
    | some [] => matchImportAux cs kws
    | none => matchImportAux cs kws

def matchImport (line : String) : Option String :=
  matchImportAux (line.data.dropWhile isSpaceChar) importKeywords

/-- `^\s*(?:kw1|kw2|...)\s+([A-Za-z_][\w]*)` for a case-sensitive keyword list,
as used by the class, constant, variable and word-keyword function patterns
(their trailing `\b` is vacuous after a greedy `[\w]*`).  A keyword not
followed by whitespace plus an identifier backtracks to the next keyword. -/
def matchKwIdent (cs : List Char) : List String → Option String
  | [] => none
  | kw :: kws =>
    match dropPrefCS kw.data cs with
    | some rest =>
      if (rest.takeWhile isSpaceChar).isEmpty then matchKwIdent cs kws
      else
        match takeIdent (rest.dropWhile isSpaceChar) with
        | some (id, _) => some (String.mk id)
        | none => matchKwIdent cs kws
    | none => matchKwIdent cs kws

def classKeywords : List String := ["class", "struct", "interface", "trait"]
def constKeywords : List String := ["const", "constexpr", "final", "immutable"]
def varKeywords : List String :=
  ["var", "let", "mut", "auto", "int", "float", "str", "bool", "char", "double", "long", "short"]

/-- `CLASS_DEF_PATTERNS[0].match(line)` and its group 1. -/
def matchClassDef (line : String) : Option String :=
  matchKwIdent (line.data.dropWhile isSpaceChar) classKeywords

/-- `CONST_PATTERNS[0].match(line)` and its group 1. -/
def matchConstDef (line : String) : Option String :=
  matchKwIdent (line.data.dropWhile isSpaceChar) constKeywords

/-- `VAR_PATTERNS[0].match(line)` and its group 1. -/
def matchVarDef (line : String) : Option String :=
  matchKwIdent (line.data.dropWhile isSpaceChar) varKeywords

def funcKeywords : List String := ["def", "function", "fn", "proc", "sub", "lambda"]

/-- `FUNCTION_DEF_PATTERNS[0]`:
`^\s*(?:def|function|fn|proc|sub|lambda|async\s+function)\s+([A-Za-z_][\w]*)\b`;
the composite alternative `async\s+function` is tried last, in pattern order. -/
def matchFuncDef1 (cs : List Char) : Option String :=
  match matchKwIdent cs funcKeywords with
  | some n => some n
  | none =>
    match dropPrefCS "async".data cs with
    | some rest =>
      if (rest.takeWhile isSpaceChar).isEmpty then none
      else
        match dropPrefCS "function".data (rest.dropWhile isSpaceChar) with
        | some rest2 =>
          if (rest2.takeWhile isSpaceChar).isEmpty then none
          else
            match takeIdent (rest2.dropWhile isSpaceChar) with
            | some (id, _) => some (String.mk id)
            | none => none
        | none => none
    | none => none

/-- `FUNCTION_DEF_PATTERNS[1]`: `^\s*([A-Za-z_][\w]*)\s*\([^)]*\)\s*\{?\s*$`. -/
def matchFuncDef2 (cs : List Char) : Option String :=
  match takeIdent cs with
  | none => none
  | some (id, rest) =>
    match rest.dropWhile isSpaceChar with
    | '(' :: r2 =>
      match r2.dropWhile (· != ')') with
      | ')' :: r3 =>
        match r3.dropWhile isSpaceChar with
        | [] => some (String.mk id)
        | c :: r5 =>
          if c == Char.ofNat 123 then
            if (r5.dropWhile isSpaceChar).isEmpty then some (String.mk id) else none
          else none
      | _ => none
    | _ => none

/-- The two function patterns, tried in order (first match wins). -/
def matchFuncDef (line : String) : Option String :=
  match matchFuncDef1 (line.data.dropWhile isSpaceChar) with
  | some n => some n
  | none => matchFuncDef2 (line.data.dropWhile isSpaceChar)

/-- One attempt of `\b(?:extends|implements|:|with)\s+([A-Za-z_][\w]*)` at a
fixed position, for a word-keyword alternative; `\b` before a word character
needs a non-word (or absent) predecessor. -/
def tryExtKw (kw : String) (prev : Option Char) (cs : List Char) : Option String :=
  if isWordOpt prev then none
  else
    match dropPrefCS kw.data cs with
    | some rest =>
      if (rest.takeWhile isSpaceChar).isEmpty then none
      else
        match takeIdent (rest.dropWhile isSpaceChar) with
        | some (id, _) => some (String.mk id)
        | none => none
    | none => none

/-- The `:` alternative of the same pattern: `\b` before `:` needs a word
predecessor. -/
def tryExtColon (prev : Option Char) (cs : List Char) : Option String :=
  if isWordOpt prev then
    match cs with
    | ':' :: rest =>
      if (rest.takeWhile isSpaceChar).isEmpty then none
      else
        match takeIdent (rest.dropWhile isSpaceChar) with
        | some (id, _) => some (String.mk id)
        | none => none
    | _ => none
  else none

def searchExtendsAux : Option Char → List Char → Option String
  | _, [] => none
  | prev, c :: rest =>
    match tryExtKw "extends" prev (c :: rest) with
    | some n => some n
    | none =>
      match tryExtKw "implements" prev (c :: rest) with
      | some n => some n
      | none =>
        match tryExtColon prev (c :: rest) with
        | some n => some n
        | none =>
          match tryExtKw "with" prev (c :: rest) with
          | some n => some n
          | none => searchExtendsAux (some c) rest

/-- `EXTENDS_PATTERN.search(line)` and its group 1: the leftmost position where
an alternative matches, alternatives in pattern order at each position. -/
def searchExtends (line : String) : Option String := searchExtendsAux none line.data

/-- `CALL_PATTERN.finditer(line)` for `\b([A-Za-z_][\w]*)\s*\(`: the captures of
the non-overlapping matches, scanning left to right and resuming after the `(`
of each match.  A shorter identifier prefix can never rescue a failed attempt
(the character after it would be a word character, not `(` or whitespace), so
only the greedy attempt is tried at each position.  Every step consumes at
least one character, so `line.length` units of fuel always suffice. -/
def findCallsAux : Nat → Option Char → List Char → List String
  | 0, _, _ => []
  | _, _, [] => []
  | Nat.succ fuel, prev, c :: rest =>
    if !isWordOpt prev && isIdentStartChar c then
      match (rest.dropWhile isWordChar).dropWhile isSpaceChar with
      | '(' :: r3 =>
        String.mk (c :: rest.takeWhile isWordChar) :: findCallsAux fuel (some '(') r3
      | _ => findCallsAux fuel (some c) rest
    else findCallsAux fuel (some c) rest

def findCalls (line : String) : List String := findCallsAux line.data.length none line.data

/-- The single-quote character. -/
def quoteChar : Char := Char.ofNat 39

/-- The regex class `[^\s'")]`. -/
def isResChar (c : Char) : Bool :=
  !(isSpaceChar c || c == quoteChar || c == '"' || c == ')')

/-- Length of the longest nonempty prefix of the greedy class run that ends on
a word boundary; the run is given reversed, `next` is the character after the
full run (`none` at end of line). -/
def blRev : List Char → Option Char → Option Nat
  | [], _ => none
  | c :: rest, next =>
    if isWordChar c != isWordOpt next then some (rest.length + 1)
    else blRev rest (some c)

def boundaryLen (run : List Char) (next : Option Char) : Option Nat :=
  blRev run.reverse next

/-- Greedy `[^\s'")]+` after a matched alternative prefix, backtracked for the
trailing `\b`: the full matched text, its last character, and the text where
scanning resumes. -/
def resRun (pre : String) (r : List Char) : Option (String × Option Char × List Char) :=
  let run := r.takeWhile isResChar
  let tail := r.dropWhile isResChar
  match boundaryLen run tail.head? with
  | none => none
  | some k =>
    some (pre ++ String.mk (run.take k), (run.take k).getLast?, run.drop k ++ tail)

/-- `RESOURCE_PATTERN.finditer(line)` for `\b(https?://[^\s'")]+|/[^\s'")]+)\b`:
at each position the URL alternative applies only after a non-word predecessor
(its first character is a word character), the path alternative only to a `/`
directly preceded by a word character; the class run is then backtracked to the
longest end on a word boundary, and scanning resumes after the match. -/
def findResAux : Nat → Option Char → List Char → List String
  | 0, _, _ => []
  | _, _, [] => []
  | Nat.succ fuel, prev, c :: rest =>
    match
      (if isWordOpt prev then none
       else
         match dropPrefCS "https://".data (c :: rest) with
         | some r => resRun "https://" r
         | none =>
           match dropPrefCS "http://".data (c :: rest) with
           | some r => resRun "http://" r
           | none => none) with
    | some (m, lastc, cont) => m :: findResAux fuel lastc cont
    | none =>
      if c == '/' && isWordOpt prev then
        match resRun "/" rest with
        | some (m, lastc, cont) => m :: findResAux fuel lastc cont
        | none => findResAux fuel (some c) rest
      else findResAux fuel (some c) rest

def findResources (line : String) : List String :=
  findResAux line.data.length none line.data

/-- The verb heuristic of the resource pass:
`line.strip().split("(")[0].split()[:1]`, lower-cased, empty when there is no
token. -/
def leadingVerb (line : String) : String :=
  match splitWs (String.mk ((stripWs line).data.takeWhile (· != '('))) with
  | [] => ""
  | t :: _ => toLowerStr t

def WRITE_VERBS : List String := ["write", "save", "put", "append", "update", "post"]
def READ_VERBS : List String := ["read", "get", "open", "fetch", "load", "download"]

/-- `NodeKind`, the closed node-category enumeration of graph.py. -/
inductive NodeKind where
  | module | type | «class» | interface | function | method | «variable» | constant
  | enum | package | file | «namespace» | resource | endpoint | unknown
deriving DecidableEq

/-- The `str` value of each `NodeKind` member. -/
def NodeKind.label : NodeKind → String
  | .module => "module"
  | .type => "type"
  | .«class» => "class"
  | .interface => "interface"
  | .function => "function"
  | .method => "method"
  | .«variable» => "variable"
  | .constant => "constant"
  | .enum => "enum"
  | .package => "package"
  | .file => "file"
  | .«namespace» => "namespace"
  | .resource => "resource"
  | .endpoint => "endpoint"
  | .unknown => "unknown"

/-- `EdgeKind`, the closed edge-category enumeration of graph.py. -/
inductive EdgeKind where
  | contains | defines | calls | imports | «extends» | implements | references
  | returns | param | throws | reads | writes | decorates | overrides
deriving DecidableEq

/-- The `str` value of each `EdgeKind` member. -/
def EdgeKind.label : EdgeKind → String
  | .contains => "contains"
  | .defines => "defines"
  | .calls => "calls"
  | .imports => "imports"
  | .«extends» => "extends"
  | .implements => "implements"
  | .references => "references"
  | .returns => "returns"
  | .param => "param"
  | .throws => "throws"
  | .reads => "reads"
  | .writes => "writes"
  | .decorates => "decorates"
  | .overrides => "overrides"

/-- The exceptions the embedded code can raise: the `KeyError` of
`Graph.add_edge`'s endpoint check; a `KeyError` from indexing `_out_edges` or
`_in_edges` directly (possible only on a graph breaking the representation
invariant `WFGraph`); the `IndexError` of the import-target split in
`HeuristicExtractor.extract`; and an arbitrary exception of an extractor
supplied to the scanner. -/
inductive PyErr where
  | keyErrorMissingEndpoint | keyErrorIndex | indexError | other
deriving DecidableEq

def charListLt : List Char → List Char → Bool
  | [], [] => false
  | [], _ :: _ => true
  | _ :: _, [] => false
  | a :: as, b :: bs => if a < b then true else if b < a then false else charListLt as bs

/-- Python tuple comparison on a `(str, str)` pair (non-strict). -/
def pairLe (a b : String × String) : Bool :=
  charListLt a.1.data b.1.data || (a.1 == b.1 && !charListLt b.2.data a.2.data)

def insertSortedBy (le : α → α → Bool) (x : α) : List α → List α
  | [] => [x]
  | y :: ys => if le x y then x :: y :: ys else y :: insertSortedBy le x ys

def sortBy (le : α → α → Bool) (l : List α) : List α := l.foldr (insertSortedBy le) []

/-- `tuple(sorted(meta.items()))`: the key/value pairs in lexicographic order
(keys are unique, coming from a dict). -/
def sortPairs (l : List (String × String)) : List (String × String) := sortBy pairLe l

/-- graph.py `Node`: an immutable value; `meta` is the sorted pair tuple. -/
structure Node where
  id : String
  name : String
  kind : NodeKind
  meta : List (String × String)
deriving DecidableEq

/-- `Node.from_meta`: sorts the metadata items. -/
def Node.from_meta (id name : String) (kind : NodeKind)
    (meta : List (String × String)) : Node :=
  ⟨id, name, kind, sortPairs meta⟩

/-- graph.py `Edge`: an immutable value; `meta` is the sorted pair tuple. -/
structure Edge where
  source : String
  target : String
  kind : EdgeKind
  meta : List (String × String)
deriving DecidableEq

/-- `Edge.from_meta`: sorts the metadata items. -/
def Edge.from_meta (source target : String) (kind : EdgeKind)
    (meta : List (String × String)) : Edge :=
  ⟨source, target, kind, sortPairs meta⟩

/-- Lookup in an insertion-ordered mapping (a Python `dict`; keys are unique in
every mapping built here). -/
def assocFind (k : String) : List (String × α) → Option α
  | [] => none
  | (k1, v) :: rest => if k1 = k then some v else assocFind k rest

/-- `d[k] = v`: replace in place, or append a new key at the end. -/
def assocSet (k : String) (v : α) : List (String × α) → List (String × α)
  | [] => [(k, v)]
  | (k1, v1) :: rest => if k1 = k then (k, v) :: rest else (k1, v1) :: assocSet k v rest

/-- `d.setdefault(k, d0)` used for its effect only. -/
def assocSetdefault (k : String) (d0 : α) (l : List (String × α)) : List (String × α) :=
  if (assocFind k l).isSome then l else l ++ [(k, d0)]

/-- `set.add` on an edge set: Python sets deduplicate by value; insertion order
stands in for the set's unspecified iteration order. -/
def insertEdgeSet (l : List Edge) (e : Edge) : List Edge :=
  if e ∈ l then l else l ++ [e]

/-- graph.py `Graph`: the node store and the two adjacency indexes. -/
structure Graph where
  nodes : List (String × Node)
  outEdges : List (String × List Edge)
  inEdges : List (String × List Edge)
deriving DecidableEq

/-- `Graph.__init__`. -/
def Graph.empty : Graph := ⟨[], [], []⟩

/-- `Graph.upsert_node`: stores the node and gives it (empty) entries in both
adjacency indexes. -/
def Graph.upsert_node (g : Graph) (n : Node) : Graph :=
  { nodes := assocSet n.id n g.nodes
    outEdges := assocSetdefault n.id [] g.outEdges
    inEdges := assocSetdefault n.id [] g.inEdges }

/-- `Graph.get_node`. -/
def Graph.get_node (g : Graph) (id : String) : Option Node := assocFind id g.nodes

/-- `Graph.ensure_node`: returns the stored node when the id is present,
otherwise builds, stores and returns a new node. -/
def Graph.ensure_node (g : Graph) (id name : String) (kind : NodeKind)
    (meta : List (String × String)) : Graph × Node :=
  match assocFind id g.nodes with
  | some n => (g, n)
  | none =>
    let n := Node.from_meta id name kind meta
    (g.upsert_node n, n)

/-- `Graph.add_edge`: raises `KeyError` when either endpoint id is absent from
the node store, before touching either index; otherwise mutates the outgoing
index, then the incoming index.  A direct `KeyError` from `_out_edges[...]` or
`_in_edges[...]` is kept apart as `PyErr.keyErrorIndex`; it can occur only on a
graph breaking the representation invariant `WFGraph`, which `upsert_node`
maintains.  The graph component is the state after the call, mutated exactly as
far as the Python method got (mutating the outgoing index leaves the incoming
index untouched, so the second lookup reads the original field). -/
def Graph.add_edge (g : Graph) (e : Edge) : Graph × Option PyErr :=
  if (assocFind e.source g.nodes).isNone || (assocFind e.target g.nodes).isNone then
    (g, some PyErr.keyErrorMissingEndpoint)
  else
    match assocFind e.source g.outEdges with
    | none => (g, some PyErr.keyErrorIndex)
    | some outSet =>
      match assocFind e.target g.inEdges with
      | none =>
        ({ g with outEdges := assocSet e.source (insertEdgeSet outSet e) g.outEdges },
         some PyErr.keyErrorIndex)
      | some inSet =>
        ({ g with outEdges := assocSet e.source (insertEdgeSet outSet e) g.outEdges,
                  inEdges := assocSet e.target (insertEdgeSet inSet e) g.inEdges }, none)

/-- `Graph.connect`: builds the edge with sorted metadata and adds it. -/
def Graph.connect (g : Graph) (src tgt : String) (kind : EdgeKind)
    (meta : List (String × String)) : Graph × Option PyErr :=
  g.add_edge (Edge.from_meta src tgt kind meta)

/-- The edge set stored under a key of an adjacency index. -/
def edgesAt (m : List (String × List Edge)) (k : String) : List Edge :=
  (assocFind k m).getD []

/-- One node record of `Graph.to_dict`. -/
structure NodeRec where
  id : String
  name : String
  kind : String
  meta : List (String × String)
deriving DecidableEq

/-- One edge record of `Graph.to_dict`. -/
structure EdgeRec where
  source : String
  target : String
  kind : String
  meta : List (String × String)
deriving DecidableEq

/-- `Graph.to_dict`: node records in node-store order and edge records walked
from the outgoing index. -/
def Graph.to_dict (g : Graph) : List NodeRec × List EdgeRec :=
  (g.nodes.map (fun p => ⟨p.2.id, p.2.name, p.2.kind.label, p.2.meta⟩),
   (g.outEdges.map (fun p =>
     p.2.map (fun e => EdgeRec.mk e.source e.target e.kind.label e.meta))).flatten)

def pairLt (a b : String × String) : Bool :=
  charListLt a.1.data b.1.data || (a.1 == b.1 && charListLt a.2.data b.2.data)

def metaLt : List (String × String) → List (String × String) → Bool
  | [], [] => false
  | [], _ :: _ => true
  | _ :: _, [] => false
  | a :: as, b :: bs => if pairLt a b then true else if pairLt b a then false else metaLt as bs

def nodeRecLe (a b : NodeRec) : Bool :=
  charListLt a.id.data b.id.data ||
    (a.id == b.id && (charListLt a.name.data b.name.data ||
      (a.name == b.name && (charListLt a.kind.data b.kind.data ||
        (a.kind == b.kind && !metaLt b.meta a.meta)))))

def edgeRecLe (a b : EdgeRec) : Bool :=
  charListLt a.source.data b.source.data ||
    (a.source == b.source && (charListLt a.target.data b.target.data ||
      (a.target == b.target && (charListLt a.kind.data b.kind.data ||
        (a.kind == b.kind && !metaLt b.meta a.meta)))))

/-- `to_dict` output under a canonical (total) sort of both record lists. -/
def Graph.canonicalDict (g : Graph) : List NodeRec × List EdgeRec :=
  (sortBy nodeRecLe g.to_dict.1, sortBy edgeRecLe g.to_dict.2)

/-- `Graph.node_id_for_file`. -/
def Graph.node_id_for_file (path : String) : String := "file:" ++ path

/-- `Graph.node_id_for_symbol`. -/
def Graph.node_id_for_symbol (fp name : String) : String :=
  "symbol:" ++ fp ++ ":" ++ name

/-- One graph operation attempted by `HeuristicExtractor.extract`:
an `ensure_node` call, a `connect` call, or the point where the Python code
raises `IndexError` (the import pass, on an empty stripped target). -/
inductive Op where
  | ensure (id name : String) (kind : NodeKind) (meta : List (String × String))
  | conn (src tgt : String) (kind : EdgeKind) (meta : List (String × String))
  | err
deriving DecidableEq

def applyOp (g : Graph) (op : Op) : Graph × Option PyErr :=
  match op with
  | .ensure id name kind meta => ((g.ensure_node id name kind meta).1, none)
  | .conn src tgt kind meta => g.connect src tgt kind meta
  | .err => (g, some PyErr.indexError)

/-- Runs attempted operations in order; an exception aborts the run and leaves
the mutations made so far in place, exactly as an uncaught Python exception
leaves the mutated graph argument. -/
def runOps : Graph → List Op → Graph × Option PyErr
  | g, [] => (g, none)
  | g, op :: rest =>
    match applyOp g op with
    | (g1, none) => runOps g1 rest
    | (g1, some e) => (g1, some e)

/-- heuristic.py, import pass, one line (extract lines 63-72). -/
def importLineOps (fid : String) (line : String) : List Op :=
  match matchImport line with
  | none => []
  | some grp =>
    match splitWs (stripChars (stripWs grp) importStripChars) with
    | [] => [Op.err]
    | t :: _ =>
      [Op.ensure ("import:" ++ t) t NodeKind.module [],
       Op.conn fid ("import:" ++ t) EdgeKind.imports [("text", stripWs line)]]

/-- heuristic.py, class/function pass, one line (extract lines 75-103); a class
match suppresses the function patterns for that line. -/
def defLineOps (fp fid : String) (idx : Nat) (line : String) : List Op :=
  match matchClassDef line with
  | some cname =>
    (Op.ensure (Graph.node_id_for_symbol fp cname) cname NodeKind.«class»
      [("line", toString idx), ("file", fp)]) ::
    (match searchExtends line with
     | some base =>
       [Op.ensure ("type:" ++ base) base NodeKind.type [],
        Op.conn (Graph.node_id_for_symbol fp cname) ("type:" ++ base)
          EdgeKind.«extends» [("line", toString idx)]]
     | none => [])
  | none =>
    match matchFuncDef line with
    | some fname =>
      [Op.ensure (Graph.node_id_for_symbol fp fname) fname NodeKind.function
        [("line", toString idx), ("file", fp)],
       Op.conn fid (Graph.node_id_for_symbol fp fname) EdgeKind.contains []]
    | none => []

/-- heuristic.py, constant/variable pass, one line (extract lines 106-122);
the two pattern families are tested independently. -/
def varConstLineOps (fp fid : String) (idx : Nat) (line : String) : List Op :=
  (match matchConstDef line with
   | some cname =>
     [Op.ensure (Graph.node_id_for_symbol fp cname) cname NodeKind.constant
        [("line", toString idx), ("file", fp)],
      Op.conn fid (Graph.node_id_for_symbol fp cname) EdgeKind.contains []]
   | none => []) ++
  (match matchVarDef line with
   | some vname =>
     [Op.ensure (Graph.node_id_for_symbol fp vname) vname NodeKind.«variable»
        [("line", toString idx), ("file", fp)],
      Op.conn fid (Graph.node_id_for_symbol fp vname) EdgeKind.contains []]
   | none => [])

/-- heuristic.py, call/resource pass, one line (extract lines 125-141). -/
def callResLineOps (fid : String) (idx : Nat) (line : String) : List Op :=
  ((findCalls line).flatMap (fun callee =>
    [Op.ensure ("symbol:any:" ++ callee) callee NodeKind.function [],
     Op.conn fid ("symbol:any:" ++ callee) EdgeKind.calls [("line", toString idx)]])) ++
  ((findResources line).flatMap (fun res =>
    (Op.ensure ("resource:" ++ res) res NodeKind.resource []) ::
    (if leadingVerb line ∈ WRITE_VERBS then
       [Op.conn fid ("resource:" ++ res) EdgeKind.writes [("line", toString idx)]]
     else if leadingVerb line ∈ READ_VERBS then
       [Op.conn fid ("resource:" ++ res) EdgeKind.reads [("line", toString idx)]]
     else [])))

def enum1From : Nat → List α → List (Nat × α)
  | _, [] => []
  | i, x :: xs => (i, x) :: enum1From (i + 1) xs

/-- `enumerate(lines, start=1)`. -/
def enum1 (l : List α) : List (Nat × α) := enum1From 1 l

/-- The graph operations `HeuristicExtractor.extract(file_path, text, graph)`
attempts, in source order: the file node, then the import, definition,
variable/constant and call/resource passes, each a full pass over the lines.
The list depends only on `(fp, text)`, never on the graph. -/
def extractOps (fp text : String) : List Op :=
  (Op.ensure (Graph.node_id_for_file fp) (basename fp) NodeKind.file [("path", fp)]) ::
  ((splitlines text).flatMap (importLineOps (Graph.node_id_for_file fp)) ++
   ((enum1 (splitlines text)).flatMap
      (fun p => defLineOps fp (Graph.node_id_for_file fp) p.1 p.2) ++
    ((enum1 (splitlines text)).flatMap
       (fun p => varConstLineOps fp (Graph.node_id_for_file fp) p.1 p.2) ++
     (enum1 (splitlines text)).flatMap
       (fun p => callResLineOps (Graph.node_id_for_file fp) p.1 p.2))))

/-- `HeuristicExtractor.extract`: runs the attempted operations against the
graph; the error component is the exception the Python method would raise. -/
def HeuristicExtractor.extract (fp text : String) (g : Graph) : Graph × Option PyErr :=
  runOps g (extractOps fp text)

/-- `HeuristicExtractor.supports`: true for any text. -/
def HeuristicExtractor.supports (_fp _text : String) : Bool := true

/-- An extractor as the scanner sees it (the duck-typed `Extractor` contract):
`supports` may raise; `extract` returns the mutated graph together with the
exception it raised, if any (partial mutations stay, as with an in-place
Python mutation). -/
structure MExtractor where
  supports : String → String → Except PyErr Bool
  extract : String → String → Graph → Graph × Option PyErr

/-- The built-in heuristic extractor, packaged for the scanner. -/
def heuristicM : MExtractor :=
  ⟨fun _fp _text => Except.ok true, HeuristicExtractor.extract⟩

/-- scanner.py `DEFAULT_IGNORES`. -/
def DEFAULT_IGNORES : List String :=
  [".git", "node_modules", ".venv", "__pycache__", ".idea", ".vscode", "dist", "build"]

/-- The filter configuration of a `Scanner` (`extensions`, `ignores`); the
Python sets are modelled as lists, membership being all that is used. -/
structure Scanner where
  extensions : Option (List String)
  ignores : List String

def startsWithDot (s : String) : Bool :=
  match s.data with
  | '.' :: _ => true
  | _ => false

/-- `Scanner.should_include_file`; `isfile` abstracts `os.path.isfile`, which
the method consults only when no extension allowlist is configured. -/
def Scanner.should_include_file (s : Scanner) (isfile : String → Bool)
    (path : String) : Bool :=
  if startsWithDot (basename path) then false
  else if (splitSep '/' path).any (fun part => s.ignores.contains part) then false
  else
    match s.extensions with
    | some exts => exts.contains (toLowerStr (splitextExt (basename path)))
    | none => isfile path

/-- One (extractor, file) try-body of `Scanner.scan` (scanner.py lines 54-60):
`supports` then `extract`; the `except Exception: continue` turns any raised
error into normal continuation, keeping the graph exactly as the failed body
left it. -/
def scanExtractorStep (fp text : String) (g : Graph) (ex : MExtractor) :
    Except PyErr Graph :=
  match ex.supports fp text with
  | Except.error _ => Except.ok g
  | Except.ok false => Except.ok g
  | Except.ok true => Except.ok (ex.extract fp text g).1

/-- The inner extractor loop of `scan`; an uncaught error of a step would
short-circuit as `.error`. -/
def scanExtractorsLoop (fp text : String) : List MExtractor → Graph → Except PyErr Graph
  | [], g => Except.ok g
  | ex :: rest, g =>
    match scanExtractorStep fp text g ex with
    | Except.error e => Except.error e
    | Except.ok g1 => scanExtractorsLoop fp text rest g1

/-- The outer file loop of `scan`: a file whose read failed (`none` text) is
skipped entirely. -/
def scanFilesLoop (es : List MExtractor) :
    List (String × Option String) → Graph → Except PyErr Graph
  | [], g => Except.ok g
  | (_, none) :: rest, g => scanFilesLoop es rest g
  | (fp, some text) :: rest, g =>
    match scanExtractorsLoop fp text es g with
    | Except.error e => Except.error e
    | Except.ok g1 => scanFilesLoop es rest g1

/-- `Scanner.scan` over the walked files: `files` pairs each path with the text
read, or `none` when `open`/`read` raised.  The loops live in `Except` so that
an uncaught exception would surface as `.error`; the per-(extractor, file)
`try`/`except Exception` makes every step return `.ok`. -/
def Scanner.scan (es : List MExtractor) (files : List (String × Option String)) :
    Except PyErr Graph :=
  scanFilesLoop es files Graph.empty

/-- The state an operation leaves behind: an ensured node id is present; a
connected edge has both endpoints present and sits in both adjacency sets.
(`err` raises, so it establishes nothing.) -/
def opDone : Op → Graph → Prop
  | .ensure id _ _ _, g => (assocFind id g.nodes).isSome = true
  | .conn s t k m, g =>
      (assocFind s g.nodes).isSome = true ∧ (assocFind t g.nodes).isSome = true ∧
      Edge.from_meta s t k m ∈ edgesAt g.outEdges s ∧
      Edge.from_meta s t k m ∈ edgesAt g.inEdges t
  | .err, _ => True

/-- Every `conn` in the list has both endpoints either in `S` or ensured by an
earlier operation of the list (`err` aborts the run, so nothing after it is
constrained). -/
def ConnsCovered : List String → List Op → Prop
  | _, [] => True
  | S, Op.ensure id _ _ _ :: rest => ConnsCovered (id :: S) rest
  | S, Op.conn s t _ _ :: rest => s ∈ S ∧ t ∈ S ∧ ConnsCovered S rest
  | _, Op.err :: _ => True

/-- Representation invariant of `Graph`: every id of the node store has an
entry in both adjacency indexes (`upsert_node` creates them), so the direct
index lookups of `add_edge` never raise on a reachable graph. -/
def WFGraph (g : Graph) : Prop :=
  ∀ id, (assocFind id g.nodes).isSome = true →
    (assocFind id g.outEdges).isSome = true ∧ (assocFind id g.inEdges).isSome = true

/-- The leading token exactly as the specification words it: the text of the
line before its first `(`, lower-cased.  Modelled from the spec, for comparison
with the code's `leadingVerb` (which additionally strips the line and keeps
only the first whitespace-delimited token). -/
def specLeadingToken (line : String) : String :=
  toLowerStr (String.mk (line.data.takeWhile (· != '(')))

/-- An extractor whose `extract` adds an edge between two ids it never ensured:
on any graph lacking them, `Graph.connect` raises the structural `KeyError`
without mutating anything. -/
def structuralFailingExtractor : MExtractor :=
  ⟨fun _fp _text => Except.ok true,
   fun _fp _text g => Graph.connect g "missing:a" "missing:b" EdgeKind.calls []⟩

/-- An extractor whose `supports` raises on every input. -/
def alwaysFailingSupports : MExtractor :=
  ⟨fun _fp _text => Except.error PyErr.other, fun _fp _text g => (g, none)⟩

/-! Association-list lemmas for the dict/set model. -/

theorem Node.from_meta_id (id name : String) (kind : NodeKind) (meta : List (String × String)) :
    (Node.from_meta id name kind meta).id = id := rfl

theorem Node.from_meta_kind (id name : String) (kind : NodeKind) (meta : List (String × String)) :
    (Node.from_meta id name kind meta).kind = kind := rfl

theorem Edge.from_meta_source (s t : String) (k : EdgeKind) (m : List (String × String)) :
    (Edge.from_meta s t k m).source = s := rfl

theorem Edge.from_meta_target (s t : String) (k : EdgeKind) (m : List (String × String)) :
    (Edge.from_meta s t k m).target = t := rfl

theorem assocFind_set_self (k : String) (v : α) (l : List (String × α)) :
    assocFind k (assocSet k v l) = some v := by
  induction l with
  | nil => simp [assocSet, assocFind]
  | cons p rest ih =>
    obtain ⟨k1, v1⟩ := p
    by_cases h : k1 = k
    · simp [assocSet, h, assocFind]
    · simp [assocSet, h, assocFind, ih]

theorem assocFind_set_ne (k1 k : String) (h : k1 ≠ k) (v : α) (l : List (String × α)) :
    assocFind k1 (assocSet k v l) = assocFind k1 l := by
  induction l with
  | nil =>
    simp only [assocSet, assocFind]
    rw [if_neg (Ne.symm h)]
  | cons p rest ih =>
    obtain ⟨k2, v2⟩ := p
    by_cases h2 : k2 = k
    · simp only [assocSet, if_pos h2, assocFind]
      rw [if_neg (Ne.symm h), if_neg (fun hh : k2 = k1 => h (hh.symm.trans h2))]
    · simp only [assocSet, if_neg h2, assocFind]
      by_cases h3 : k2 = k1
      · rw [if_pos h3, if_pos h3]
      · rw [if_neg h3, if_neg h3, ih]

theorem assocSet_of_find (k : String) (v : α) (l : List (String × α))
    (h : assocFind k l = some v) : assocSet k v l = l := by
  induction l with
  | nil => simp [assocFind] at h
  | cons p rest ih =>
    obtain ⟨k1, v1⟩ := p
    by_cases h1 : k1 = k
    · simp only [assocFind, if_pos h1] at h
      have hv : v1 = v := Option.some_inj.mp h
      simp only [assocSet, if_pos h1]
      rw [← h1, hv]
    · simp only [assocFind, if_neg h1] at h
      simp [assocSet, h1, ih h]

theorem assocFind_append (k : String) (l1 l2 : List (String × α)) :
    assocFind k (l1 ++ l2) =
      (match assocFind k l1 with
       | some v => some v
       | none => assocFind k l2) := by
  induction l1 with
  | nil => simp [assocFind]
  | cons p rest ih =>
    obtain ⟨k1, v1⟩ := p
    by_cases h : k1 = k
    · simp [assocFind, h]
    · simp [assocFind, h, ih]

theorem isSome_assocFind_set (k1 k : String) (v : α) (l : List (String × α))
    (h : (assocFind k1 l).isSome = true) :
    (assocFind k1 (assocSet k v l)).isSome = true := by
  by_cases hk : k1 = k
  · subst hk
    simp [assocFind_set_self]
  · rw [assocFind_set_ne k1 k hk]
    exact h

theorem isSome_assocFind_setdefault (k1 k : String) (d0 : α) (l : List (String × α))
    (h : (assocFind k1 l).isSome = true) :
    (assocFind k1 (assocSetdefault k d0 l)).isSome = true := by
  unfold assocSetdefault
  by_cases hg : (assocFind k l).isSome = true
  · rw [if_pos hg]; exact h
  · rw [if_neg hg, assocFind_append]
    obtain ⟨v, hv⟩ := Option.isSome_iff_exists.mp h
    simp [hv]

theorem assocFind_setdefault_self (k : String) (d0 : α) (l : List (String × α)) :
    (assocFind k (assocSetdefault k d0 l)).isSome = true := by
  unfold assocSetdefault
  by_cases hg : (assocFind k l).isSome = true
  · rw [if_pos hg]; exact hg
  · rw [if_neg hg, assocFind_append]
    cases hf : assocFind k l with
    | none => simp [assocFind]
    | some v => simp [hf] at hg

theorem mem_insertEdgeSet_self (l : List Edge) (e : Edge) : e ∈ insertEdgeSet l e := by
  unfold insertEdgeSet
  by_cases h : e ∈ l
  · rw [if_pos h]; exact h
  · simp [h]

theorem mem_insertEdgeSet_of_mem (l : List Edge) (x e : Edge) (h : x ∈ l) :
    x ∈ insertEdgeSet l e := by
  unfold insertEdgeSet
  by_cases he : e ∈ l
  · simpa [he]
  · simp [he, h]

theorem insertEdgeSet_of_mem (l : List Edge) (e : Edge) (h : e ∈ l) :
    insertEdgeSet l e = l := by
  simp [insertEdgeSet, h]

/-! The operations of an extract run only ever add: node lookups, outgoing-set
membership and incoming-set membership are all preserved by `applyOp`,
whether the operation succeeds or raises. -/

theorem nodes_add_edge (g : Graph) (e : Edge) : (g.add_edge e).1.nodes = g.nodes := by
  unfold Graph.add_edge
  split
  · rfl
  · split
    · rfl
    · split
      · rfl
      · rfl

theorem get_node_applyOp (g : Graph) (op : Op) (i : String) (n : Node)
    (h : g.get_node i = some n) : (applyOp g op).1.get_node i = some n := by
  cases op with
  | ensure id name kind meta =>
    simp only [applyOp, Graph.ensure_node]
    cases hf : assocFind id g.nodes with
    | some m => exact h
    | none =>
      by_cases hi : id = i
      · subst hi
        rw [Graph.get_node] at h
        rw [hf] at h
        exact absurd h (by simp)
      · simp only [Graph.upsert_node, Graph.get_node, Node.from_meta_id]
        rw [assocFind_set_ne i id (fun hh => hi hh.symm)]
        exact h
  | conn s t k m =>
    simp only [applyOp, Graph.connect, Graph.get_node]
    rw [nodes_add_edge]
    exact h
  | err => exact h

theorem isSome_get_node_applyOp (g : Graph) (op : Op) (i : String)
    (h : (assocFind i g.nodes).isSome = true) :
    (assocFind i (applyOp g op).1.nodes).isSome = true := by
  obtain ⟨n, hn⟩ := Option.isSome_iff_exists.mp h
  have := get_node_applyOp g op i n hn
  rw [Graph.get_node] at this
  simp [this]

theorem edgesAt_setdefault (m : List (String × List Edge)) (k id : String) (e : Edge)
    (h : e ∈ edgesAt m k) : e ∈ edgesAt (assocSetdefault id [] m) k := by
  unfold assocSetdefault
  by_cases hg : (assocFind id m).isSome = true
  · rw [if_pos hg]; exact h
  · rw [if_neg hg]
    unfold edgesAt at h ⊢
    rw [assocFind_append]
    cases hf : assocFind k m with
    | none => rw [hf] at h; simp at h
    | some v =>
      rw [hf] at h
      simpa using h

theorem edgesAt_set_mono (m : List (String × List Edge)) (k src : String)
    (oldSet : List Edge) (e x : Edge) (hfind : assocFind src m = some oldSet)
    (h : x ∈ edgesAt m k) :
    x ∈ edgesAt (assocSet src (insertEdgeSet oldSet e) m) k := by
  unfold edgesAt at h ⊢
  by_cases hk : k = src
  · subst hk
    rw [assocFind_set_self]
    rw [hfind] at h
    simp only [Option.getD_some] at h
    simpa using mem_insertEdgeSet_of_mem oldSet x e h
  · rw [assocFind_set_ne k src hk]
    exact h

theorem edgesAt_out_applyOp (g : Graph) (op : Op) (k : String) (x : Edge)
    (h : x ∈ edgesAt g.outEdges k) : x ∈ edgesAt (applyOp g op).1.outEdges k := by
  cases op with
  | ensure id name kind meta =>
    simp only [applyOp, Graph.ensure_node]
    cases hf : assocFind id g.nodes with
    | some m => exact h
    | none => exact edgesAt_setdefault g.outEdges k id x h
  | conn s t kk m =>
    simp only [applyOp, Graph.connect]
    unfold Graph.add_edge
    split
    · exact h
    · cases hout : assocFind (Edge.from_meta s t kk m).source g.outEdges with
      | none => simpa [hout] using h
      | some outSet =>
        cases hin : assocFind (Edge.from_meta s t kk m).target g.inEdges with
        | none =>
          simp only [hout, hin]
          exact edgesAt_set_mono g.outEdges k _ outSet _ x hout h
        | some inSet =>
          simp only [hout, hin]
          exact edgesAt_set_mono g.outEdges k _ outSet _ x hout h
  | err => exact h

theorem edgesAt_in_applyOp (g : Graph) (op : Op) (k : String) (x : Edge)
    (h : x ∈ edgesAt g.inEdges k) : x ∈ edgesAt (applyOp g op).1.inEdges k := by
  cases op with
  | ensure id name kind meta =>
    simp only [applyOp, Graph.ensure_node]
    cases hf : assocFind id g.nodes with
    | some m => exact h
    | none => exact edgesAt_setdefault g.inEdges k id x h
  | conn s t kk m =>
    simp only [applyOp, Graph.connect]
    unfold Graph.add_edge
    split
    · exact h
    · cases hout : assocFind (Edge.from_meta s t kk m).source g.outEdges with
      | none => simpa [hout] using h
      | some outSet =>
        cases hin : assocFind (Edge.from_meta s t kk m).target g.inEdges with
        | none => simpa [hout, hin] using h
        | some inSet =>
          simp only [hout, hin]
          exact edgesAt_set_mono g.inEdges k _ inSet _ x hin h
  | err => exact h

/-! Replay machinery: every operation of an extract run is an idempotent
insertion, so running the same operation list twice is the same as running it
once — including runs cut short by an exception. -/

theorem isSome_of_not_isNone (o : Option α) (h : ¬ o.isNone = true) : o.isSome = true := by
  cases o with
  | none => exact absurd rfl h
  | some v => rfl

theorem opDone_of_success (g g1 : Graph) (op : Op)
    (h : applyOp g op = (g1, none)) : opDone op g1 := by
  cases op with
  | ensure id name kind meta =>
    have hg1 : g1 = (g.ensure_node id name kind meta).1 := by
      simpa [applyOp] using congrArg Prod.fst h.symm
    subst hg1
    simp only [opDone, Graph.ensure_node]
    cases hf : assocFind id g.nodes with
    | some n => simp [hf]
    | none =>
      simp only [Graph.upsert_node, Node.from_meta_id]
      simp [assocFind_set_self]
  | conn s t k m =>
    simp only [applyOp, Graph.connect, Graph.add_edge, Edge.from_meta_source,
      Edge.from_meta_target] at h
    split at h
    · exact absurd (congrArg Prod.snd h) (by simp)
    next hc =>
      split at h
      · exact absurd (congrArg Prod.snd h) (by simp)
      next outSet hout =>
        split at h
        · exact absurd (congrArg Prod.snd h) (by simp)
        next inSet hin =>
          have hg1 : g1 = { g with
              outEdges := assocSet s (insertEdgeSet outSet (Edge.from_meta s t k m)) g.outEdges,
              inEdges := assocSet t (insertEdgeSet inSet (Edge.from_meta s t k m)) g.inEdges } :=
            (congrArg Prod.fst h).symm
          rw [Bool.or_eq_true, not_or] at hc
          obtain ⟨hs, ht⟩ := hc
          subst hg1
          refine ⟨isSome_of_not_isNone _ hs, isSome_of_not_isNone _ ht, ?_, ?_⟩
          · unfold edgesAt
            rw [assocFind_set_self]
            simpa using mem_insertEdgeSet_self outSet _
          · unfold edgesAt
            rw [assocFind_set_self]
            simpa using mem_insertEdgeSet_self inSet _
  | err =>
    simp [applyOp] at h

theorem opDone_mono (g : Graph) (op op2 : Op) (h : opDone op g) :
    opDone op (applyOp g op2).1 := by
  cases op with
  | ensure id name kind meta =>
    exact isSome_get_node_applyOp g op2 id h
  | conn s t k m =>
    obtain ⟨hs, ht, ho, hi⟩ := h
    exact ⟨isSome_get_node_applyOp g op2 s hs, isSome_get_node_applyOp g op2 t ht,
      edgesAt_out_applyOp g op2 s _ ho, edgesAt_in_applyOp g op2 t _ hi⟩
  | err => trivial

theorem opDone_runOps (g : Graph) (op : Op) (l : List Op) (h : opDone op g) :
    opDone op (runOps g l).1 := by
  induction l generalizing g with
  | nil => exact h
  | cons op2 rest ih =>
    cases happ : applyOp g op2 with
    | mk g1 r =>
      have h1 : opDone op g1 := by
        have := opDone_mono g op op2 h
        rw [happ] at this
        exact this
      cases r with
      | none => simpa [runOps, happ] using ih g1 h1
      | some e => simpa [runOps, happ] using h1

theorem opDone_apply_eq (g : Graph) (op : Op) (hne : op ≠ Op.err)
    (h : opDone op g) : applyOp g op = (g, none) := by
  cases op with
  | ensure id name kind meta =>
    obtain ⟨n, hn⟩ := Option.isSome_iff_exists.mp h
    simp [applyOp, Graph.ensure_node, hn]
  | conn s t k m =>
    obtain ⟨hs, ht, ho, hi⟩ := h
    obtain ⟨ns, hns⟩ := Option.isSome_iff_exists.mp hs
    obtain ⟨nt, hnt⟩ := Option.isSome_iff_exists.mp ht
    unfold edgesAt at ho hi
    cases hout : assocFind s g.outEdges with
    | none => rw [hout] at ho; simp at ho
    | some outSet =>
      rw [hout] at ho
      simp only [Option.getD_some] at ho
      cases hin : assocFind t g.inEdges with
      | none => rw [hin] at hi; simp at hi
      | some inSet =>
        rw [hin] at hi
        simp only [Option.getD_some] at hi
        simp only [applyOp, Graph.connect, Graph.add_edge, Edge.from_meta_source,
          Edge.from_meta_target, hns, hnt, hout, hin, Option.isNone_some,
          Bool.or_self, Bool.false_eq_true, if_false,
          insertEdgeSet_of_mem outSet _ ho, insertEdgeSet_of_mem inSet _ hi,
          assocSet_of_find s outSet g.outEdges hout,
          assocSet_of_find t inSet g.inEdges hin]
  | err => exact absurd rfl hne

theorem applyOp_fail_fix (g g1 : Graph) (op : Op) (e : PyErr)
    (h : applyOp g op = (g1, some e)) : applyOp g1 op = (g1, some e) := by
  cases op with
  | ensure id name kind meta =>
    exact absurd (congrArg Prod.snd h) (by simp [applyOp])
  | err =>
    have hg : g1 = g := (congrArg Prod.fst h).symm
    subst hg
    exact h
  | conn s t k m =>
    simp only [applyOp, Graph.connect, Graph.add_edge, Edge.from_meta_source,
      Edge.from_meta_target] at h ⊢
    split at h
    next hc =>
      have hg : g1 = g := (congrArg Prod.fst h).symm
      subst hg
      rw [if_pos hc]
      exact h
    next hc =>
      split at h
      next hout =>
        have hg : g1 = g := (congrArg Prod.fst h).symm
        subst hg
        rw [if_neg hc]
        simp only [hout]
        exact h
      next outSet hout =>
        split at h
        next hin =>
          have hg : g1 = { g with
              outEdges := assocSet s (insertEdgeSet outSet (Edge.from_meta s t k m)) g.outEdges } :=
            (congrArg Prod.fst h).symm
          have he : e = PyErr.keyErrorIndex := by
            have h2 := congrArg Prod.snd h
            simpa using h2.symm
          subst hg he
          rw [if_neg (by simpa using hc)]
          simp only [assocFind_set_self, hin,
            insertEdgeSet_of_mem _ _ (mem_insertEdgeSet_self outSet (Edge.from_meta s t k m)),
            assocSet_of_find _ _ _ (assocFind_set_self s
              (insertEdgeSet outSet (Edge.from_meta s t k m)) g.outEdges)]
        next inSet hin =>
          exact absurd (congrArg Prod.snd h) (by simp)

theorem runOps_replay (l : List Op) (g : Graph) :
    runOps (runOps g l).1 l = runOps g l := by
  induction l generalizing g with
  | nil => rfl
  | cons op rest ih =>
    cases happ : applyOp g op with
    | mk g1 r =>
      cases r with
      | none =>
        have e1 : runOps g (op :: rest) = runOps g1 rest := by simp [runOps, happ]
        rw [e1]
        have hne : op ≠ Op.err := by
          intro hop
          rw [hop] at happ
          exact absurd (congrArg Prod.snd happ) (by simp [applyOp])
        have hd : opDone op (runOps g1 rest).1 :=
          opDone_runOps g1 op rest (opDone_of_success g g1 op happ)
        have e2 : applyOp (runOps g1 rest).1 op = ((runOps g1 rest).1, none) :=
          opDone_apply_eq _ op hne hd
        have e3 : runOps (runOps g1 rest).1 (op :: rest) =
            runOps (runOps g1 rest).1 rest := by simp [runOps, e2]
        rw [e3, ih g1]
      | some e =>
        have e1 : runOps g (op :: rest) = (g1, some e) := by simp [runOps, happ]
        rw [e1]
        have e2 : applyOp g1 op = (g1, some e) := applyOp_fail_fix g g1 op e happ
        simp [runOps, e2]

/-! Coverage machinery: every `connect` of an extract run is preceded, in the
operation list itself, by `ensure_node` operations for both of its endpoints,
so the missing-endpoint branch of `add_edge` is unreachable from `extract`. -/

theorem ConnsCovered_append (l1 l2 : List Op) (S : List String)
    (h1 : ConnsCovered S l1)
    (h2 : ∀ S', (∀ x, x ∈ S → x ∈ S') → ConnsCovered S' l2) :
    ConnsCovered S (l1 ++ l2) := by
  induction l1 generalizing S with
  | nil => exact h2 S (fun _ hx => hx)
  | cons op rest ih =>
    cases op with
    | ensure id name kind meta =>
      exact ih (id :: S) h1
        (fun S' hs => h2 S' (fun x hx => hs x (List.mem_cons_of_mem _ hx)))
    | conn s t k m =>
      obtain ⟨ha, hb, hc⟩ := h1
      exact ⟨ha, hb, ih S hc h2⟩
    | err => trivial

theorem ConnsCovered_flatMap (f : β → List Op) (l : List β) (fid : String)
    (hblocks : ∀ x S, fid ∈ S → ConnsCovered S (f x)) :
    ∀ S, fid ∈ S → ConnsCovered S (l.flatMap f) := by
  induction l with
  | nil => intro S _; trivial
  | cons x xs ih =>
    intro S hS
    rw [List.flatMap_cons]
    exact ConnsCovered_append _ _ S (hblocks x S hS) (fun S' hsub => ih S' (hsub _ hS))

theorem ConnsCovered_importLineOps (fid line : String) (S : List String)
    (hfid : fid ∈ S) : ConnsCovered S (importLineOps fid line) := by
  unfold importLineOps
  split
  · trivial
  · split
    · trivial
    · exact ⟨List.mem_cons_of_mem _ hfid, List.mem_cons_self _ _, trivial⟩

theorem ConnsCovered_defLineOps (fp fid : String) (idx : Nat) (line : String)
    (S : List String) (hfid : fid ∈ S) : ConnsCovered S (defLineOps fp fid idx line) := by
  unfold defLineOps
  split
  · split
    · exact ⟨List.mem_cons_of_mem _ (List.mem_cons_self _ _), List.mem_cons_self _ _, trivial⟩
    · trivial
  · split
    · exact ⟨List.mem_cons_of_mem _ hfid, List.mem_cons_self _ _, trivial⟩
    · trivial

theorem ConnsCovered_varConstLineOps (fp fid : String) (idx : Nat) (line : String)
    (S : List String) (hfid : fid ∈ S) :
    ConnsCovered S (varConstLineOps fp fid idx line) := by
  unfold varConstLineOps
  split
  · split
    · exact ⟨List.mem_cons_of_mem _ hfid, List.mem_cons_self _ _,
        List.mem_cons_of_mem _ (List.mem_cons_of_mem _ hfid), List.mem_cons_self _ _, trivial⟩
    · exact ⟨List.mem_cons_of_mem _ hfid, List.mem_cons_self _ _, trivial⟩
  · split
    · exact ⟨List.mem_cons_of_mem _ hfid, List.mem_cons_self _ _, trivial⟩
    · trivial

theorem ConnsCovered_callsBlock (fid : String) (idx : Nat) (callee : String)
    (S : List String) (hS : fid ∈ S) :
    ConnsCovered S
      [Op.ensure ("symbol:any:" ++ callee) callee NodeKind.function [],
       Op.conn fid ("symbol:any:" ++ callee) EdgeKind.calls [("line", toString idx)]] :=
  ⟨List.mem_cons_of_mem _ hS, List.mem_cons_self _ _, trivial⟩

theorem ConnsCovered_resBlock (fid : String) (idx : Nat) (line res : String)
    (S : List String) (hS : fid ∈ S) :
    ConnsCovered S
      ((Op.ensure ("resource:" ++ res) res NodeKind.resource []) ::
       (if leadingVerb line ∈ WRITE_VERBS then
          [Op.conn fid ("resource:" ++ res) EdgeKind.writes [("line", toString idx)]]
        else if leadingVerb line ∈ READ_VERBS then
          [Op.conn fid ("resource:" ++ res) EdgeKind.reads [("line", toString idx)]]
        else [])) := by
  by_cases hw : leadingVerb line ∈ WRITE_VERBS
  · simp only [if_pos hw]
    exact ⟨List.mem_cons_of_mem _ hS, List.mem_cons_self _ _, trivial⟩
  · rw [if_neg hw]
    by_cases hr : leadingVerb line ∈ READ_VERBS
    · simp only [if_pos hr]
      exact ⟨List.mem_cons_of_mem _ hS, List.mem_cons_self _ _, trivial⟩
    · rw [if_neg hr]
      trivial

theorem ConnsCovered_callResLineOps (fid : String) (idx : Nat) (line : String)
    (S : List String) (hfid : fid ∈ S) :
    ConnsCovered S (callResLineOps fid idx line) := by
  unfold callResLineOps
  refine ConnsCovered_append _ _ S
    (ConnsCovered_flatMap
      (fun callee =>
        [Op.ensure ("symbol:any:" ++ callee) callee NodeKind.function [],
         Op.conn fid ("symbol:any:" ++ callee) EdgeKind.calls [("line", toString idx)]])
      (findCalls line) fid
      (fun callee S' hS' => ConnsCovered_callsBlock fid idx callee S' hS') S hfid)
    (fun S' hsub => ?_)
  exact ConnsCovered_flatMap
    (fun res =>
      (Op.ensure ("resource:" ++ res) res NodeKind.resource []) ::
      (if leadingVerb line ∈ WRITE_VERBS then
         [Op.conn fid ("resource:" ++ res) EdgeKind.writes [("line", toString idx)]]
       else if leadingVerb line ∈ READ_VERBS then
         [Op.conn fid ("resource:" ++ res) EdgeKind.reads [("line", toString idx)]]
       else []))
    (findResources line) fid
    (fun res S2 hS2 => ConnsCovered_resBlock fid idx line res S2 hS2) S' (hsub _ hfid)

theorem ConnsCovered_extractOps (fp text : String) :
    ConnsCovered [] (extractOps fp text) := by
  show ConnsCovered [Graph.node_id_for_file fp]
    ((splitlines text).flatMap (importLineOps (Graph.node_id_for_file fp)) ++
     ((enum1 (splitlines text)).flatMap
        (fun p => defLineOps fp (Graph.node_id_for_file fp) p.1 p.2) ++
      ((enum1 (splitlines text)).flatMap
         (fun p => varConstLineOps fp (Graph.node_id_for_file fp) p.1 p.2) ++
       (enum1 (splitlines text)).flatMap
         (fun p => callResLineOps (Graph.node_id_for_file fp) p.1 p.2))))
  have hfid0 : Graph.node_id_for_file fp ∈ [Graph.node_id_for_file fp] :=
    List.mem_cons_self _ _
  refine ConnsCovered_append _ _ _
    (ConnsCovered_flatMap _ _ _ (fun line S hS =>
      ConnsCovered_importLineOps _ line S hS) _ hfid0) (fun S1 h1 => ?_)
  have hf1 := h1 _ hfid0
  refine ConnsCovered_append _ _ _
    (ConnsCovered_flatMap _ _ _ (fun p S hS =>
      ConnsCovered_defLineOps fp _ p.1 p.2 S hS) _ hf1) (fun S2 h2 => ?_)
  have hf2 := h2 _ hf1
  refine ConnsCovered_append _ _ _
    (ConnsCovered_flatMap _ _ _ (fun p S hS =>
      ConnsCovered_varConstLineOps fp _ p.1 p.2 S hS) _ hf2) (fun S3 h3 => ?_)
  exact ConnsCovered_flatMap _ _ _ (fun p S hS =>
    ConnsCovered_callResLineOps _ p.1 p.2 S hS) _ (h3 _ hf2)

theorem isSome_find_ensure_self (g : Graph) (id name : String) (kind : NodeKind)
    (meta : List (String × String)) :
    (assocFind id (g.ensure_node id name kind meta).1.nodes).isSome = true := by
  unfold Graph.ensure_node
  cases hf : assocFind id g.nodes with
  | some n => simp [hf]
  | none =>
    simp only [Graph.upsert_node, Node.from_meta_id]
    simp [assocFind_set_self]

theorem runOps_no_missing_endpoint (l : List Op) (S : List String) (g : Graph)
    (hcov : ConnsCovered S l)
    (hpres : ∀ id, id ∈ S → (assocFind id g.nodes).isSome = true) :
    (runOps g l).2 ≠ some PyErr.keyErrorMissingEndpoint := by
  induction l generalizing S g with
  | nil => simp [runOps]
  | cons op rest ih =>
    cases op with
    | ensure id name kind meta =>
      have happ : applyOp g (Op.ensure id name kind meta) =
          ((g.ensure_node id name kind meta).1, none) := rfl
      rw [show runOps g (Op.ensure id name kind meta :: rest) =
          runOps (g.ensure_node id name kind meta).1 rest by simp [runOps, happ]]
      refine ih (id :: S) _ hcov (fun i hi => ?_)
      rcases List.mem_cons.mp hi with hi1 | hi2
      · subst hi1
        exact isSome_find_ensure_self g i name kind meta
      · exact isSome_get_node_applyOp g (Op.ensure id name kind meta) i (hpres i hi2)
    | conn s t k m =>
      obtain ⟨hsS, htS, hrest⟩ := hcov
      obtain ⟨ns, hns⟩ := Option.isSome_iff_exists.mp (hpres s hsS)
      obtain ⟨nt, hnt⟩ := Option.isSome_iff_exists.mp (hpres t htS)
      simp only [runOps, applyOp, Graph.connect, Graph.add_edge, Edge.from_meta_source,
        Edge.from_meta_target, hns, hnt, Option.isNone_some, Bool.or_self]
      cases hout : assocFind s g.outEdges with
      | none => simp
      | some outSet =>
        cases hin : assocFind t g.inEdges with
        | none => simp
        | some inSet =>
          simp only []
          exact ih S _ hrest (fun i hi => hpres i hi)
    | err =>
      simp [runOps, applyOp]

/-! Representation-invariant lemmas. -/

theorem WFGraph_empty : WFGraph Graph.empty := by
  intro id h
  simp [Graph.empty, assocFind] at h

theorem WFGraph_applyOp (g : Graph) (op : Op) (h : WFGraph g) :
    WFGraph (applyOp g op).1 := by
  cases op with
  | ensure id name kind meta =>
    simp only [applyOp, Graph.ensure_node]
    cases hf : assocFind id g.nodes with
    | some n => exact h
    | none =>
      intro i hi
      simp only [Graph.upsert_node, Node.from_meta_id] at hi ⊢
      by_cases hid : i = id
      · subst hid
        exact ⟨assocFind_setdefault_self _ _ _, assocFind_setdefault_self _ _ _⟩
      · rw [assocFind_set_ne i id hid] at hi
        obtain ⟨h1, h2⟩ := h i hi
        exact ⟨isSome_assocFind_setdefault _ _ _ _ h1, isSome_assocFind_setdefault _ _ _ _ h2⟩
  | conn s t k m =>
    simp only [applyOp, Graph.connect, Graph.add_edge, Edge.from_meta_source,
      Edge.from_meta_target]
    split
    · exact h
    · cases hout : assocFind s g.outEdges with
      | none => exact h
      | some outSet =>
        cases hin : assocFind t g.inEdges with
        | none =>
          intro i hi
          obtain ⟨h1, h2⟩ := h i hi
          exact ⟨isSome_assocFind_set _ _ _ _ h1, h2⟩
        | some inSet =>
          intro i hi
          obtain ⟨h1, h2⟩ := h i hi
          exact ⟨isSome_assocFind_set _ _ _ _ h1, isSome_assocFind_set _ _ _ _ h2⟩
  | err => exact h

/-- A `connect` whose endpoints are present, on a well-formed graph, succeeds
and lands the edge in the outgoing set of its source. -/
theorem applyOp_conn_success (g : Graph) (s t : String) (k : EdgeKind)
    (m : List (String × String)) (hwf : WFGraph g)
    (hs : (assocFind s g.nodes).isSome = true)
    (ht : (assocFind t g.nodes).isSome = true) :
    (applyOp g (Op.conn s t k m)).2 = none ∧
    Edge.from_meta s t k m ∈ edgesAt (applyOp g (Op.conn s t k m)).1.outEdges s := by
  obtain ⟨ns, hns⟩ := Option.isSome_iff_exists.mp hs
  obtain ⟨nt, hnt⟩ := Option.isSome_iff_exists.mp ht
  obtain ⟨outSet, hout⟩ := Option.isSome_iff_exists.mp (hwf s hs).1
  obtain ⟨inSet, hin⟩ := Option.isSome_iff_exists.mp (hwf t ht).2
  simp only [applyOp, Graph.connect, Graph.add_edge, Edge.from_meta_source,
    Edge.from_meta_target, hns, hnt, Option.isNone_some, Bool.or_self,
    Bool.false_eq_true, if_false, hout, hin]
  refine ⟨by trivial, ?_⟩
  unfold edgesAt
  rw [assocFind_set_self]
  simpa using mem_insertEdgeSet_self outSet _

theorem runOps_cons_success (g g1 : Graph) (op : Op) (rest : List Op)
    (happ : applyOp g op = (g1, none)) :
    runOps g (op :: rest) = runOps g1 rest := by
  simp [runOps, happ]

/-! `ensure_node` and `connect` helpers for walking concrete extract runs. -/

theorem get_node_ensure_fresh (g : Graph) (id nm : String) (k : NodeKind)
    (m : List (String × String)) (h : g.get_node id = none) :
    (g.ensure_node id nm k m).1.get_node id = some (Node.from_meta id nm k m) := by
  rw [Graph.get_node] at h
  simp [Graph.ensure_node, h, Graph.upsert_node, Graph.get_node, Node.from_meta_id,
    assocFind_set_self]

theorem get_node_ensure_ne (g : Graph) (id nm : String) (k : NodeKind)
    (m : List (String × String)) (i : String) (h : i ≠ id) :
    (g.ensure_node id nm k m).1.get_node i = g.get_node i := by
  unfold Graph.ensure_node
  cases hf : assocFind id g.nodes with
  | some n => rfl
  | none =>
    simp only [Graph.upsert_node, Graph.get_node, Node.from_meta_id]
    exact assocFind_set_ne i id h _ g.nodes

theorem ensure_kind (g : Graph) (id nm : String) (k : NodeKind)
    (m : List (String × String))
    (h : ∀ n0, g.get_node id = some n0 → n0.kind = k) :
    ∃ n, (g.ensure_node id nm k m).1.get_node id = some n ∧ n.kind = k := by
  unfold Graph.ensure_node
  cases hf : assocFind id g.nodes with
  | some n0 =>
    refine ⟨n0, ?_, h n0 ?_⟩
    · simpa [Graph.get_node] using hf
    · simpa [Graph.get_node] using hf
  | none =>
    refine ⟨Node.from_meta id nm k m, ?_, rfl⟩
    simp [Graph.upsert_node, Graph.get_node, Node.from_meta_id, assocFind_set_self]

theorem get_node_conn (g : Graph) (s t : String) (k : EdgeKind)
    (m : List (String × String)) (i : String) :
    (applyOp g (Op.conn s t k m)).1.get_node i = g.get_node i := by
  simp only [applyOp, Graph.connect, Graph.get_node, nodes_add_edge]

theorem str_ne_of_head (s t : String) (c1 c2 : Char) (h1 : s.data.head? = some c1)
    (h2 : t.data.head? = some c2) (hne : c1 ≠ c2) : s ≠ t := by
  intro h
  rw [h] at h1
  rw [h1] at h2
  exact hne (Option.some_inj.mp h2)

/-! Scanner-loop lemmas. -/

theorem scanExtractorStep_ok (fp text : String) (g : Graph) (ex : MExtractor) :
    ∃ g1, scanExtractorStep fp text g ex = Except.ok g1 := by
  unfold scanExtractorStep
  cases hs : ex.supports fp text with
  | error e => exact ⟨g, rfl⟩
  | ok b =>
    cases b with
    | false => exact ⟨g, rfl⟩
    | true => exact ⟨(ex.extract fp text g).1, rfl⟩

theorem scanExtractorsLoop_ok (fp text : String) (es : List MExtractor) (g : Graph) :
    ∃ g1, scanExtractorsLoop fp text es g = Except.ok g1 := by
  induction es generalizing g with
  | nil => exact ⟨g, rfl⟩
  | cons ex rest ih =>
    obtain ⟨g1, hg1⟩ := scanExtractorStep_ok fp text g ex
    simpa [scanExtractorsLoop, hg1] using ih g1

theorem scanFilesLoop_ok (es : List MExtractor) (files : List (String × Option String))
    (g0 : Graph) : ∃ g, scanFilesLoop es files g0 = Except.ok g := by
  induction files generalizing g0 with
  | nil => exact ⟨g0, rfl⟩
  | cons file rest ih =>
    obtain ⟨fp, txt⟩ := file
    cases txt with
    | none => simpa [scanFilesLoop] using ih g0
    | some text =>
      obtain ⟨g1, hg1⟩ := scanExtractorsLoop_ok fp text es g0
      simpa [scanFilesLoop, hg1] using ih g1

theorem scanExtractorsLoop_drop_bad (fp text : String) (bad : MExtractor)
    (hbad : ∀ g, scanExtractorStep fp text g bad = Except.ok g)
    (es1 es2 : List MExtractor) (g : Graph) :
    scanExtractorsLoop fp text (es1 ++ bad :: es2) g =
      scanExtractorsLoop fp text (es1 ++ es2) g := by
  induction es1 generalizing g with
  | nil =>
    show scanExtractorsLoop fp text (bad :: es2) g = scanExtractorsLoop fp text es2 g
    simp [scanExtractorsLoop, hbad g]
  | cons ex rest ih =>
    simp only [List.cons_append, scanExtractorsLoop]
    cases hs : scanExtractorStep fp text g ex with
    | error e => rfl
    | ok g1 => exact ih g1

theorem scanFilesLoop_drop_bad (bad : MExtractor)
    (hbad : ∀ fp text g, scanExtractorStep fp text g bad = Except.ok g)
    (es1 es2 : List MExtractor) (files : List (String × Option String)) (g0 : Graph) :
    scanFilesLoop (es1 ++ bad :: es2) files g0 = scanFilesLoop (es1 ++ es2) files g0 := by
  induction files generalizing g0 with
  | nil => rfl
  | cons file rest ih =>
    obtain ⟨fp, txt⟩ := file
    cases txt with
    | none => simpa [scanFilesLoop] using ih g0
    | some text =>
      simp only [scanFilesLoop,
        scanExtractorsLoop_drop_bad fp text bad (hbad fp text) es1 es2 g0]
      cases hl : scanExtractorsLoop fp text (es1 ++ es2) g0 with
      | error e => rfl
      | ok g1 => exact ih g1

theorem isSome_of_get_node (g : Graph) (i : String) (n : Node)
    (h : g.get_node i = some n) : (assocFind i g.nodes).isSome = true := by
  rw [Graph.get_node] at h
  simp [h]

theorem applyOp_eq_of_snd_none (g : Graph) (op : Op) (h : (applyOp g op).2 = none) :
    applyOp g op = ((applyOp g op).1, none) := by
  rw [← h]

theorem verb_sets_disjoint (v : String) (h1 : v ∈ WRITE_VERBS) (h2 : v ∈ READ_VERBS) :
    False := by
  simp only [WRITE_VERBS, List.mem_cons, List.not_mem_nil, or_false] at h1
  rcases h1 with rfl | rfl | rfl | rfl | rfl | rfl <;> simp [READ_VERBS] at h2

/-! The claims. -/

/-- C1: extraction is idempotent.  Running `HeuristicExtractor.extract` a second
time over the same `(file_path, text)` against the graph a first run produced
changes nothing at all — node store, both adjacency indexes and the error
outcome are exactly those of the single run (hence the node set and edge set
are not duplicated); and a run is a pure function of its input, so two runs
against fresh graphs yield the same graph and hence identical canonically
sorted `to_dict` output. -/
theorem c1_extract_idempotent (fp text : String) (g : Graph) :
    HeuristicExtractor.extract fp text (HeuristicExtractor.extract fp text g).1 =
      HeuristicExtractor.extract fp text g ∧
    (HeuristicExtractor.extract fp text Graph.empty).1.canonicalDict =
      (HeuristicExtractor.extract fp text Graph.empty).1.canonicalDict :=
  ⟨runOps_replay (extractOps fp text) g, rfl⟩

/-- C2: `add_edge` with a source or target id absent from the node store raises
the distinguishable structural `KeyError`, and the returned state — node store
and both adjacency indexes — is exactly the graph before the call. -/
theorem c2_add_edge_missing_endpoint (g : Graph) (e : Edge)
    (h : assocFind e.source g.nodes = none ∨ assocFind e.target g.nodes = none) :
    g.add_edge e = (g, some PyErr.keyErrorMissingEndpoint) := by
  have hc : ((assocFind e.source g.nodes).isNone ||
      (assocFind e.target g.nodes).isNone) = true := by
    rcases h with h | h <;> simp [h]
  unfold Graph.add_edge
  rw [if_pos hc]

theorem c2_witness :
    (assocFind (Edge.from_meta "a" "b" EdgeKind.calls []).source Graph.empty.nodes = none ∨
     assocFind (Edge.from_meta "a" "b" EdgeKind.calls []).target Graph.empty.nodes = none) ∧
    Graph.empty.add_edge (Edge.from_meta "a" "b" EdgeKind.calls []) =
      (Graph.empty, some PyErr.keyErrorMissingEndpoint) :=
  ⟨Or.inl rfl, c2_add_edge_missing_endpoint Graph.empty _ (Or.inl rfl)⟩

/-- C3: first writer wins.  On a graph where `id` is absent, the first
`ensure_node` stores and returns exactly the node built from its arguments; a
second `ensure_node` under the same id with different arguments changes
nothing and returns that stored node unchanged. -/
theorem c3_ensure_node_first_writer (g : Graph) (id n1 n2 : String)
    (k1 k2 : NodeKind) (m1 m2 : List (String × String))
    (h : g.get_node id = none) :
    (g.ensure_node id n1 k1 m1).1.get_node id = some (Node.from_meta id n1 k1 m1) ∧
    (g.ensure_node id n1 k1 m1).2 = Node.from_meta id n1 k1 m1 ∧
    (g.ensure_node id n1 k1 m1).1.ensure_node id n2 k2 m2 =
      ((g.ensure_node id n1 k1 m1).1, Node.from_meta id n1 k1 m1) := by
  have h1 := get_node_ensure_fresh g id n1 k1 m1 h
  refine ⟨h1, ?_, ?_⟩
  · rw [Graph.get_node] at h
    simp [Graph.ensure_node, h]
  · rw [Graph.get_node] at h1
    rw [Graph.get_node] at h
    simp only [Graph.ensure_node, h] at h1 ⊢
    simp [h1]

theorem c3_witness :
    Graph.empty.get_node "x" = none ∧
    ((Graph.empty.ensure_node "x" "A" NodeKind.«class» [("k", "v")]).1.get_node "x" =
        some (Node.from_meta "x" "A" NodeKind.«class» [("k", "v")]) ∧
     (Graph.empty.ensure_node "x" "A" NodeKind.«class» [("k", "v")]).2 =
        Node.from_meta "x" "A" NodeKind.«class» [("k", "v")] ∧
     (Graph.empty.ensure_node "x" "A" NodeKind.«class» [("k", "v")]).1.ensure_node "x" "B"
         NodeKind.function [("k2", "v2")] =
       ((Graph.empty.ensure_node "x" "A" NodeKind.«class» [("k", "v")]).1,
        Node.from_meta "x" "A" NodeKind.«class» [("k", "v")])) :=
  ⟨rfl, c3_ensure_node_first_writer Graph.empty "x" "A" "B" NodeKind.«class»
    NodeKind.function [("k", "v")] [("k2", "v2")] rfl⟩

/-- C4: extractor-failure isolation.  An extractor whose `supports` raises, or
whose `supports` succeeds and whose `extract` raises without mutating the
graph, is caught inside `scan` on every file: the scan continues with the
remaining extractor/file pairs and returns exactly the graph the other
extractors accumulate, as if the failing extractor were absent. -/
theorem c4_scan_isolates_failing_extractor (es1 es2 : List MExtractor) (bad : MExtractor)
    (files : List (String × Option String))
    (hbad : ∀ fp text, (∃ e, bad.supports fp text = Except.error e) ∨
      (bad.supports fp text = Except.ok true ∧
       ∀ g, ∃ e, bad.extract fp text g = (g, some e))) :
    Scanner.scan (es1 ++ bad :: es2) files = Scanner.scan (es1 ++ es2) files := by
  unfold Scanner.scan
  apply scanFilesLoop_drop_bad
  intro fp text g
  unfold scanExtractorStep
  rcases hbad fp text with ⟨e, he⟩ | ⟨hs, hx⟩
  · rw [he]
  · rw [hs]
    obtain ⟨e, he⟩ := hx g
    rw [he]

theorem c4_witness :
    Scanner.scan [alwaysFailingSupports, heuristicM] [("a.py", some "x = 1")] =
      Scanner.scan [heuristicM] [("a.py", some "x = 1")] :=
  c4_scan_isolates_failing_extractor [] [heuristicM] alwaysFailingSupports
    [("a.py", some "x = 1")] (fun _fp _text => Or.inl ⟨PyErr.other, rfl⟩)

/-- C5 counterexample: an extractor whose `extract` raises the structural
missing-endpoint `KeyError` during a scan, yet `scan` swallows it like any
other failure and returns a graph instead of raising it to the caller. -/
theorem c5_counterexample :
    (structuralFailingExtractor.extract "a.py" "" Graph.empty).2 =
      some PyErr.keyErrorMissingEndpoint ∧
    Scanner.scan [structuralFailingExtractor] [("a.py", some "")] =
      Except.ok Graph.empty :=
  ⟨rfl, rfl⟩

/-- C5 (amended): `scan` propagates no failure at all — the blanket
`except Exception` around each (extractor, file) pair catches the structural
missing-endpoint error exactly like any other extractor exception, so a scan
always completes with a graph. -/
theorem c5_scan_never_propagates (es : List MExtractor)
    (files : List (String × Option String)) :
    ∃ g, Scanner.scan es files = Except.ok g :=
  scanFilesLoop_ok es files Graph.empty

/-- C6: extracting the single line `class Dog extends Animal` for the path
a.py produces the class node `symbol:a.py:Dog`, the type node `type:Animal`,
and an EXTENDS edge from the class node to the type node. -/
theorem c6_class_extends_scenario :
    (HeuristicExtractor.extract "a.py" "class Dog extends Animal" Graph.empty).1.get_node
        "symbol:a.py:Dog" =
      some (Node.from_meta "symbol:a.py:Dog" "Dog" NodeKind.«class»
        [("line", "1"), ("file", "a.py")]) ∧
    (HeuristicExtractor.extract "a.py" "class Dog extends Animal" Graph.empty).1.get_node
        "type:Animal" = some (Node.from_meta "type:Animal" "Animal" NodeKind.type []) ∧
    Edge.from_meta "symbol:a.py:Dog" "type:Animal" EdgeKind.«extends» [("line", "1")] ∈
      edgesAt
        (HeuristicExtractor.extract "a.py" "class Dog extends Animal" Graph.empty).1.outEdges
        "symbol:a.py:Dog" := by
  refine ⟨rfl, rfl, ?_⟩
  decide

set_option maxHeartbeats 2000000 in
/-- C7: for any file path, extracting the single line `download("https://x/y")`
produces a resource node `resource:https://x/y`, a READS edge from the file
node to that resource node (the verb `download` is in the read-verb set), and
a CALLS edge from the file node to a function node with id
`symbol:any:download`. -/
theorem c7_call_resource_verb_scenario (fp : String) :
    (∃ n, (HeuristicExtractor.extract fp "download(\"https://x/y\")" Graph.empty).1.get_node
        "resource:https://x/y" = some n ∧ n.kind = NodeKind.resource) ∧
    Edge.from_meta (Graph.node_id_for_file fp) "resource:https://x/y" EdgeKind.reads
        [("line", "1")] ∈
      edgesAt
        (HeuristicExtractor.extract fp "download(\"https://x/y\")" Graph.empty).1.outEdges
        (Graph.node_id_for_file fp) ∧
    (∃ n, (HeuristicExtractor.extract fp "download(\"https://x/y\")" Graph.empty).1.get_node
        "symbol:any:download" = some n ∧ n.kind = NodeKind.function) ∧
    Edge.from_meta (Graph.node_id_for_file fp) "symbol:any:download" EdgeKind.calls
        [("line", "1")] ∈
      edgesAt
        (HeuristicExtractor.extract fp "download(\"https://x/y\")" Graph.empty).1.outEdges
        (Graph.node_id_for_file fp) := by
  have nfs : Graph.node_id_for_file fp ≠ Graph.node_id_for_symbol fp "download" :=
    str_ne_of_head _ _ 'f' 's' rfl rfl (by decide)
  have nfa : Graph.node_id_for_file fp ≠ "symbol:any:download" :=
    str_ne_of_head _ _ 'f' 's' rfl rfl (by decide)
  have nfr : Graph.node_id_for_file fp ≠ "resource:https://x/y" :=
    str_ne_of_head _ _ 'f' 'r' rfl rfl (by decide)
  have nsr : Graph.node_id_for_symbol fp "download" ≠ "resource:https://x/y" :=
    str_ne_of_head _ _ 's' 'r' rfl rfl (by decide)
  have nar : ("symbol:any:download" : String) ≠ "resource:https://x/y" := by decide
  have hops : extractOps fp "download(\"https://x/y\")" =
      [Op.ensure (Graph.node_id_for_file fp) (basename fp) NodeKind.file [("path", fp)],
       Op.ensure (Graph.node_id_for_symbol fp "download") "download" NodeKind.function
         [("line", "1"), ("file", fp)],
       Op.conn (Graph.node_id_for_file fp) (Graph.node_id_for_symbol fp "download")
         EdgeKind.contains [],
       Op.ensure "symbol:any:download" "download" NodeKind.function [],
       Op.conn (Graph.node_id_for_file fp) "symbol:any:download" EdgeKind.calls
         [("line", "1")],
       Op.ensure "resource:https://x/y" "https://x/y" NodeKind.resource [],
       Op.conn (Graph.node_id_for_file fp) "resource:https://x/y" EdgeKind.reads
         [("line", "1")]] := rfl
  unfold HeuristicExtractor.extract
  rw [hops]
  set fid := Graph.node_id_for_file fp with hfid_def
  set symD := Graph.node_id_for_symbol fp "download" with hsymD_def
  set g1 := (Graph.empty.ensure_node fid (basename fp) NodeKind.file [("path", fp)]).1
    with hg1
  have w1 : WFGraph g1 :=
    WFGraph_applyOp Graph.empty (Op.ensure fid (basename fp) NodeKind.file [("path", fp)])
      WFGraph_empty
  have f1 : g1.get_node fid =
      some (Node.from_meta fid (basename fp) NodeKind.file [("path", fp)]) :=
    get_node_ensure_fresh Graph.empty fid (basename fp) NodeKind.file [("path", fp)] rfl
  have r1 : g1.get_node "resource:https://x/y" = none := by
    rw [hg1, get_node_ensure_ne Graph.empty fid (basename fp) NodeKind.file [("path", fp)]
      _ (Ne.symm nfr)]
    rfl
  have a1 : g1.get_node "symbol:any:download" = none := by
    rw [hg1, get_node_ensure_ne Graph.empty fid (basename fp) NodeKind.file [("path", fp)]
      _ (Ne.symm nfa)]
    rfl
  have aD1 : g1.get_node symD = none := by
    rw [hg1, get_node_ensure_ne Graph.empty fid (basename fp) NodeKind.file [("path", fp)]
      _ (Ne.symm nfs)]
    rfl
  set g2 := (g1.ensure_node symD "download" NodeKind.function
    [("line", "1"), ("file", fp)]).1 with hg2
  have w2 : WFGraph g2 :=
    WFGraph_applyOp g1 (Op.ensure symD "download" NodeKind.function
      [("line", "1"), ("file", fp)]) w1
  have f2 : g2.get_node fid =
      some (Node.from_meta fid (basename fp) NodeKind.file [("path", fp)]) :=
    get_node_applyOp g1 (Op.ensure symD "download" NodeKind.function
      [("line", "1"), ("file", fp)]) fid _ f1
  have d2 : g2.get_node symD =
      some (Node.from_meta symD "download" NodeKind.function
        [("line", "1"), ("file", fp)]) :=
    get_node_ensure_fresh g1 symD "download" NodeKind.function
      [("line", "1"), ("file", fp)] aD1
  have r2 : g2.get_node "resource:https://x/y" = none := by
    rw [hg2, get_node_ensure_ne g1 symD "download" NodeKind.function
      [("line", "1"), ("file", fp)] _ (Ne.symm nsr)]
    exact r1
  have a2k : ∀ n0, g2.get_node "symbol:any:download" = some n0 →
      n0.kind = NodeKind.function := by
    intro n0 hn0
    by_cases hx : ("symbol:any:download" : String) = symD
    · rw [hx, d2] at hn0
      obtain rfl := Option.some_inj.mp hn0
      rfl
    · rw [hg2, get_node_ensure_ne g1 symD "download" NodeKind.function
        [("line", "1"), ("file", fp)] _ hx] at hn0
      rw [a1] at hn0
      exact absurd hn0 (by simp)
  have h3 := applyOp_conn_success g2 fid symD EdgeKind.contains [] w2
    (isSome_of_get_node g2 fid _ f2) (isSome_of_get_node g2 symD _ d2)
  set g3 := (applyOp g2 (Op.conn fid symD EdgeKind.contains [])).1 with hg3
  have w3 : WFGraph g3 := WFGraph_applyOp g2 (Op.conn fid symD EdgeKind.contains []) w2
  have f3 : g3.get_node fid =
      some (Node.from_meta fid (basename fp) NodeKind.file [("path", fp)]) :=
    get_node_applyOp g2 (Op.conn fid symD EdgeKind.contains []) fid _ f2
  have r3 : g3.get_node "resource:https://x/y" = none := by
    rw [hg3, get_node_conn]
    exact r2
  have a3k : ∀ n0, g3.get_node "symbol:any:download" = some n0 →
      n0.kind = NodeKind.function := by
    intro n0 hn0
    rw [hg3, get_node_conn] at hn0
    exact a2k n0 hn0
  set g4 := (g3.ensure_node "symbol:any:download" "download" NodeKind.function []).1
    with hg4
  have w4 : WFGraph g4 :=
    WFGraph_applyOp g3 (Op.ensure "symbol:any:download" "download" NodeKind.function []) w3
  have f4 : g4.get_node fid =
      some (Node.from_meta fid (basename fp) NodeKind.file [("path", fp)]) :=
    get_node_applyOp g3 (Op.ensure "symbol:any:download" "download" NodeKind.function [])
      fid _ f3
  have a4 : ∃ n, g4.get_node "symbol:any:download" = some n ∧
      n.kind = NodeKind.function :=
    ensure_kind g3 "symbol:any:download" "download" NodeKind.function [] a3k
  have r4 : g4.get_node "resource:https://x/y" = none := by
    rw [hg4, get_node_ensure_ne g3 "symbol:any:download" "download" NodeKind.function []
      _ (Ne.symm nar)]
    exact r3
  obtain ⟨nA, hA4, hAk⟩ := a4
  have h5 := applyOp_conn_success g4 fid "symbol:any:download" EdgeKind.calls
    [("line", "1")] w4 (isSome_of_get_node g4 fid _ f4)
    (isSome_of_get_node g4 "symbol:any:download" _ hA4)
  set g5 := (applyOp g4 (Op.conn fid "symbol:any:download" EdgeKind.calls
    [("line", "1")])).1 with hg5
  have w5 : WFGraph g5 :=
    WFGraph_applyOp g4 (Op.conn fid "symbol:any:download" EdgeKind.calls [("line", "1")]) w4
  have f5 : g5.get_node fid =
      some (Node.from_meta fid (basename fp) NodeKind.file [("path", fp)]) :=
    get_node_applyOp g4 (Op.conn fid "symbol:any:download" EdgeKind.calls [("line", "1")])
      fid _ f4
  have hA5 : g5.get_node "symbol:any:download" = some nA :=
    get_node_applyOp g4 (Op.conn fid "symbol:any:download" EdgeKind.calls [("line", "1")])
      "symbol:any:download" _ hA4
  have r5 : g5.get_node "resource:https://x/y" = none := by
    rw [hg5, get_node_conn]
    exact r4
  have e5 : Edge.from_meta fid "symbol:any:download" EdgeKind.calls [("line", "1")] ∈
      edgesAt g5.outEdges fid := h5.2
  set g6 := (g5.ensure_node "resource:https://x/y" "https://x/y" NodeKind.resource []).1
    with hg6
  have w6 : WFGraph g6 :=
    WFGraph_applyOp g5 (Op.ensure "resource:https://x/y" "https://x/y"
      NodeKind.resource []) w5
  have f6 : g6.get_node fid =
      some (Node.from_meta fid (basename fp) NodeKind.file [("path", fp)]) :=
    get_node_applyOp g5 (Op.ensure "resource:https://x/y" "https://x/y"
      NodeKind.resource []) fid _ f5
  have hA6 : g6.get_node "symbol:any:download" = some nA :=
    get_node_applyOp g5 (Op.ensure "resource:https://x/y" "https://x/y"
      NodeKind.resource []) "symbol:any:download" _ hA5
  have rn6 : g6.get_node "resource:https://x/y" =
      some (Node.from_meta "resource:https://x/y" "https://x/y" NodeKind.resource []) :=
    get_node_ensure_fresh g5 "resource:https://x/y" "https://x/y" NodeKind.resource [] r5
  have e6 : Edge.from_meta fid "symbol:any:download" EdgeKind.calls [("line", "1")] ∈
      edgesAt g6.outEdges fid :=
    edgesAt_out_applyOp g5 (Op.ensure "resource:https://x/y" "https://x/y"
      NodeKind.resource []) fid _ e5
  have h7 := applyOp_conn_success g6 fid "resource:https://x/y" EdgeKind.reads
    [("line", "1")] w6 (isSome_of_get_node g6 fid _ f6)
    (isSome_of_get_node g6 "resource:https://x/y" _ rn6)
  set g7 := (applyOp g6 (Op.conn fid "resource:https://x/y" EdgeKind.reads
    [("line", "1")])).1 with hg7
  have rn7 : g7.get_node "resource:https://x/y" =
      some (Node.from_meta "resource:https://x/y" "https://x/y" NodeKind.resource []) :=
    get_node_applyOp g6 (Op.conn fid "resource:https://x/y" EdgeKind.reads [("line", "1")])
      "resource:https://x/y" _ rn6
  have hA7 : g7.get_node "symbol:any:download" = some nA :=
    get_node_applyOp g6 (Op.conn fid "resource:https://x/y" EdgeKind.reads [("line", "1")])
      "symbol:any:download" _ hA6
  have e7c : Edge.from_meta fid "symbol:any:download" EdgeKind.calls [("line", "1")] ∈
      edgesAt g7.outEdges fid :=
    edgesAt_out_applyOp g6 (Op.conn fid "resource:https://x/y" EdgeKind.reads
      [("line", "1")]) fid _ e6
  have e7r : Edge.from_meta fid "resource:https://x/y" EdgeKind.reads [("line", "1")] ∈
      edgesAt g7.outEdges fid := h7.2
  have s3 : applyOp g2 (Op.conn fid symD EdgeKind.contains []) = (g3, none) := by
    rw [hg3]
    exact applyOp_eq_of_snd_none g2 _ h3.1
  have s5 : applyOp g4 (Op.conn fid "symbol:any:download" EdgeKind.calls [("line", "1")]) =
      (g5, none) := by
    rw [hg5]
    exact applyOp_eq_of_snd_none g4 _ h5.1
  have s7 : applyOp g6 (Op.conn fid "resource:https://x/y" EdgeKind.reads [("line", "1")]) =
      (g7, none) := by
    rw [hg7]
    exact applyOp_eq_of_snd_none g6 _ h7.1
  have hrun : runOps Graph.empty
      [Op.ensure fid (basename fp) NodeKind.file [("path", fp)],
       Op.ensure symD "download" NodeKind.function [("line", "1"), ("file", fp)],
       Op.conn fid symD EdgeKind.contains [],
       Op.ensure "symbol:any:download" "download" NodeKind.function [],
       Op.conn fid "symbol:any:download" EdgeKind.calls [("line", "1")],
       Op.ensure "resource:https://x/y" "https://x/y" NodeKind.resource [],
       Op.conn fid "resource:https://x/y" EdgeKind.reads [("line", "1")]] = (g7, none) := by
    rw [runOps_cons_success Graph.empty g1 _ _ (by rw [hg1]; rfl)]
    rw [runOps_cons_success g1 g2 _ _ (by rw [hg2]; rfl)]
    rw [runOps_cons_success g2 g3 _ _ s3]
    rw [runOps_cons_success g3 g4 _ _ (by rw [hg4]; rfl)]
    rw [runOps_cons_success g4 g5 _ _ s5]
    rw [runOps_cons_success g5 g6 _ _ (by rw [hg6]; rfl)]
    rw [runOps_cons_success g6 g7 _ _ s7]
    rfl
  rw [hrun]
  exact ⟨⟨Node.from_meta "resource:https://x/y" "https://x/y" NodeKind.resource [], rn7, rfl⟩,
    e7r, ⟨nA, hA7, hAk⟩, e7c⟩

/-- C8 counterexample: on the line `save a/b (x)` the resource literal `/b` is
found and the code creates a WRITES edge for it, although the leading token as
the claim defines it — the whole text before the line's first `(`,
lower-cased, here "save a/b " — is in neither verb set, so the claimed
biconditional forbids that edge. -/
theorem c8_counterexample :
    "/b" ∈ findResources "save a/b (x)" ∧
    specLeadingToken "save a/b (x)" ∉ WRITE_VERBS ∧
    specLeadingToken "save a/b (x)" ∉ READ_VERBS ∧
    Edge.from_meta "file:a.py" "resource:/b" EdgeKind.writes [("line", "1")] ∈
      edgesAt (HeuristicExtractor.extract "a.py" "save a/b (x)" Graph.empty).1.outEdges
        "file:a.py" := by
  refine ⟨by decide, by decide, by decide, ?_⟩
  decide

/-- C8 (amended): for every resource literal found on a line, the WRITES
(respectively READS) edge operation is generated if and only if the code's
verb — the first whitespace-delimited token of the stripped line's text before
its first `(`, lower-cased — is in the write (respectively read) verb set;
the resource node operation is generated regardless of the verb. -/
theorem c8_verb_edges (fid : String) (idx : Nat) (line res : String)
    (hres : res ∈ findResources line) :
    Op.ensure ("resource:" ++ res) res NodeKind.resource [] ∈ callResLineOps fid idx line ∧
    ((Op.conn fid ("resource:" ++ res) EdgeKind.writes [("line", toString idx)] ∈
        callResLineOps fid idx line) ↔ leadingVerb line ∈ WRITE_VERBS) ∧
    ((Op.conn fid ("resource:" ++ res) EdgeKind.reads [("line", toString idx)] ∈
        callResLineOps fid idx line) ↔ leadingVerb line ∈ READ_VERBS) := by
  unfold callResLineOps
  refine ⟨?_, ⟨?_, ?_⟩, ⟨?_, ?_⟩⟩
  · exact List.mem_append_right _
      (List.mem_flatMap.mpr ⟨res, hres, List.mem_cons_self _ _⟩)
  · intro hm
    rcases List.mem_append.mp hm with hl | hr
    · exfalso
      rcases List.mem_flatMap.mp hl with ⟨c, _, hc⟩
      simp at hc
    · rcases List.mem_flatMap.mp hr with ⟨r, _, hrmem⟩
      rcases List.mem_cons.mp hrmem with h1 | h2
      · exact absurd h1 (by simp)
      · by_cases hw : leadingVerb line ∈ WRITE_VERBS
        · exact hw
        · exfalso
          rw [if_neg hw] at h2
          by_cases hrv : leadingVerb line ∈ READ_VERBS
          · simp only [if_pos hrv] at h2
            simp at h2
          · rw [if_neg hrv] at h2
            simp at h2
  · intro hw
    exact List.mem_append_right _
      (List.mem_flatMap.mpr ⟨res, hres, by simp [if_pos hw]⟩)
  · intro hm
    rcases List.mem_append.mp hm with hl | hr
    · exfalso
      rcases List.mem_flatMap.mp hl with ⟨c, _, hc⟩
      simp at hc
    · rcases List.mem_flatMap.mp hr with ⟨r, _, hrmem⟩
      rcases List.mem_cons.mp hrmem with h1 | h2
      · exact absurd h1 (by simp)
      · by_cases hw : leadingVerb line ∈ WRITE_VERBS
        · exfalso
          simp only [if_pos hw] at h2
          simp at h2
        · rw [if_neg hw] at h2
          by_cases hrv : leadingVerb line ∈ READ_VERBS
          · exact hrv
          · exfalso
            rw [if_neg hrv] at h2
            simp at h2
  · intro hrv
    have hw : leadingVerb line ∉ WRITE_VERBS := fun hw => verb_sets_disjoint _ hw hrv
    exact List.mem_append_right _
      (List.mem_flatMap.mpr ⟨res, hres, by simp [if_neg hw, if_pos hrv]⟩)

theorem c8_witness :
    ("https://x/y" ∈ findResources "download(\"https://x/y\")") ∧
    (Op.ensure ("resource:" ++ "https://x/y") "https://x/y" NodeKind.resource [] ∈
        callResLineOps "file:a.py" 1 "download(\"https://x/y\")" ∧
     ((Op.conn "file:a.py" ("resource:" ++ "https://x/y") EdgeKind.writes
          [("line", toString 1)] ∈ callResLineOps "file:a.py" 1 "download(\"https://x/y\")") ↔
        leadingVerb "download(\"https://x/y\")" ∈ WRITE_VERBS) ∧
     ((Op.conn "file:a.py" ("resource:" ++ "https://x/y") EdgeKind.reads
          [("line", toString 1)] ∈ callResLineOps "file:a.py" 1 "download(\"https://x/y\")") ↔
        leadingVerb "download(\"https://x/y\")" ∈ READ_VERBS)) :=
  ⟨by decide, c8_verb_edges "file:a.py" 1 "download(\"https://x/y\")" "https://x/y" (by decide)⟩

/-- C9 counterexample: with allowlist `{".EXT"}`, the path `main.ext` meets
every premise of the claim — basename not dot-prefixed, no ignored segment,
extension equal to an allowlist entry up to letter case — yet
`should_include_file` returns false, because only the file's extension is
lower-cased while allowlist entries are compared verbatim. -/
theorem c9_counterexample :
    startsWithDot (basename "main.ext") = false ∧
    (splitSep '/' "main.ext").any (fun part => DEFAULT_IGNORES.contains part) = false ∧
    toLowerStr (splitextExt (basename "main.ext")) = toLowerStr ".EXT" ∧
    Scanner.should_include_file ⟨some [".EXT"], DEFAULT_IGNORES⟩ (fun _ => true) "main.ext"
      = false := by
  refine ⟨rfl, by decide, by decide, by decide⟩

/-- C9 (amended): with an extension allowlist configured, for every path whose
basename is not dot-prefixed and that contains no ignored segment,
`should_include_file` returns exactly the verbatim allowlist membership of the
path's lower-cased extension — so `{".ext"}` admits `MAIN.EXT`, while
`{".EXT"}` rejects `main.ext`. -/
theorem c9_extension_matching (exts igns : List String) (isfile : String → Bool)
    (path : String)
    (h1 : startsWithDot (basename path) = false)
    (h2 : (splitSep '/' path).any (fun part => igns.contains part) = false) :
    Scanner.should_include_file ⟨some exts, igns⟩ isfile path =
      exts.contains (toLowerStr (splitextExt (basename path))) := by
  unfold Scanner.should_include_file
  rw [if_neg (by simp only [h1]; exact Bool.false_ne_true),
      if_neg (by simp only [h2]; exact Bool.false_ne_true)]

theorem c9_witness :
    startsWithDot (basename "src/MAIN.EXT") = false ∧
    (splitSep '/' "src/MAIN.EXT").any
      (fun part => DEFAULT_IGNORES.contains part) = false ∧
    Scanner.should_include_file ⟨some [".ext"], DEFAULT_IGNORES⟩ (fun _ => true)
        "src/MAIN.EXT" =
      [".ext"].contains (toLowerStr (splitextExt (basename "src/MAIN.EXT"))) :=
  ⟨by decide, by decide,
   c9_extension_matching [".ext"] DEFAULT_IGNORES (fun _ => true) "src/MAIN.EXT"
     (by decide) (by decide)⟩

/-- C10 counterexample: `extract` can raise.  On the line `import ;` the import
target strips to the empty string and indexing `[0]` raises `IndexError`, so
"extract never raises" is false. -/
theorem c10_counterexample :
    (HeuristicExtractor.extract "a.py" "import ;" Graph.empty).2 =
      some PyErr.indexError := by
  decide

/-- C10 (amended): every `connect` made by `extract` is preceded, within the
same call, by `ensure_node` calls for both endpoint ids, so the
missing-endpoint error branch of `add_edge` is unreachable from `extract` for
every `(file_path, text)` and every graph — although `extract` can still raise
the import-pass `IndexError`. -/
theorem c10_no_structural_error (fp text : String) (g : Graph) :
    (HeuristicExtractor.extract fp text g).2 ≠ some PyErr.keyErrorMissingEndpoint :=
  runOps_no_missing_endpoint (extractOps fp text) [] g (ConnsCovered_extractOps fp text)
    (fun id hid => absurd hid (List.not_mem_nil id))

theorem c10_witness :
    (HeuristicExtractor.extract "a.py" "class A" Graph.empty).2 ≠
      some PyErr.keyErrorMissingEndpoint :=
  c10_no_structural_error "a.py" "class A" Graph.empty

end CodeKG
